import Mathlib

/-
Shallow embedding of the Smart_Timetable_Optimizer scheduling engine
(src/tools/solver_runner.py together with the validator and local-improvement
pass of src/UI/teacher_dashboard.py / src/UI/admin_dashboard.py), and proofs
about it.

Conventions of the embedding:
* Python dicts with `.get` returning `None` become `Option` fields; the Python
  idiom `x or y` on strings (where the empty string is falsy) becomes `strOr`.
* Python dict iteration order is insertion order; dicts are embedded as
  association lists with `dictInsert` reproducing insert-or-overwrite
  semantics (the key keeps its original position, the value is replaced).
* The wall-clock-seeded `random.shuffle` of the greedy filler is embedded as
  an explicit `shuffle` parameter; theorems that need it assume the parameter
  permutes its input, which `random.shuffle` guarantees.
* `random.sample(slots, 2)` in the local-improvement pass is embedded by
  `samplePick`, which draws two distinct positions of `slots` from a pair of
  integers supplied by an explicit stream of picks.
* The CP-SAT solve call is external to the repository; it is embedded as an
  oracle `Option Assignment` together with the soundness hypothesis that any
  returned assignment satisfies the encoded model `ortoolsModelOk`.
-/

namespace Timetable

set_option maxRecDepth 8192

/-- The five weekday names, `DAYS` in solver_runner.py. -/
def DAYS : List String := ["Monday", "Tuesday", "Wednesday", "Thursday", "Friday"]

/-- Python `a or b` on strings: the empty string is falsy. -/
def strOr (a b : String) : String := if a = "" then b else a

/-- `d.get(key)` for an optional string field, with `None` read as `""`
only when the Python code immediately applies `or ""`. -/
def getStr (o : Option String) : String := o.getD ""

/-
String primitives.  The embedding re-implements the Python string methods
it needs over `List Char` with structural recursion (rather than through
the position-based core-library functions), so that every definition
evaluates on concrete inputs; the inputs of this code base are ASCII.
-/

/-- Python `str.strip()`: whitespace removed from both ends. -/
def pyTrim (s : String) : String :=
  String.mk (((s.data.dropWhile Char.isWhitespace).reverse.dropWhile
    Char.isWhitespace).reverse)

/-- Python `str.lower()`. -/
def strLower (s : String) : String := String.mk (s.data.map Char.toLower)

/-- Python `str.upper()`. -/
def strUpper (s : String) : String := String.mk (s.data.map Char.toUpper)

/-- Python `ch in s` for a single character. -/
def containsChar (s : String) (ch : Char) : Bool := s.data.any (fun c => c = ch)

/-- Python `s.split(ch, 1)`: the text before and after the first `ch`
(the second component is empty when `ch` does not occur). -/
def splitFirstChar (ch : Char) (s : String) : String × String :=
  (String.mk (s.data.takeWhile (fun c => c ≠ ch)),
   String.mk ((s.data.dropWhile (fun c => c ≠ ch)).drop 1))

/-- Python `s.replace(ch, "")` for a single character. -/
def removeChar (ch : Char) (s : String) : String :=
  String.mk (s.data.filter (fun c => c ≠ ch))

/-- Python `s.replace(a, b)` for single characters. -/
def mapChar (a b : Char) (s : String) : String :=
  String.mk (s.data.map (fun c => if c = a then b else c))

/-- Python `s.lstrip("P")`. -/
def lstripP (s : String) : String :=
  String.mk (s.data.dropWhile (fun c => c = 'P'))

/-- Value of a run of decimal digits. -/
def digitsVal (l : List Char) : Nat :=
  l.foldl (fun acc c => acc * 10 + (c.toNat - 48)) 0

/-- Python `int(s)` on an already-stripped string: an optional sign followed
by decimal digits (underscore grouping and non-ASCII digits, which Python
would also accept, are not modelled — no input of this repository uses
them). -/
def parseIntStr (s : String) : Option Int :=
  match s.data with
  | [] => none
  | '-' :: rest =>
    if rest ≠ [] && rest.all Char.isDigit then some (-(digitsVal rest : Int))
    else none
  | '+' :: rest =>
    if rest ≠ [] && rest.all Char.isDigit then some ((digitsVal rest : Int))
    else none
  | l => if l.all Char.isDigit then some ((digitsVal l : Int)) else none

/-- Helper of `pySplitWs`, carrying the current word reversed. -/
def pySplitWsAux : List Char → List Char → List String
  | [], acc => if acc.isEmpty then [] else [String.mk acc.reverse]
  | c :: rest, acc =>
    if c.isWhitespace then
      if acc.isEmpty then pySplitWsAux rest []
      else String.mk acc.reverse :: pySplitWsAux rest []
    else pySplitWsAux rest (c :: acc)

/-- Python `s.split()`: whitespace-delimited tokens, empties dropped. -/
def pySplitWs (s : String) : List String := pySplitWsAux s.data []

/-- Helper of `splitHeadSep`; the fuel keeps the recursion structural. -/
def splitHeadSepAux (sep : List Char) : Nat → List Char → List Char
  | _, [] => []
  | 0, l => l
  | fuel + 1, c :: rest =>
    if sep.isPrefixOf (c :: rest) then [] else c :: splitHeadSepAux sep fuel rest

/-- The head of Python `s.split(sep)` for a multi-character separator: the
text before the first occurrence of `sep`, or all of it when `sep` does not
occur. -/
def splitHeadSep (sep l : List Char) : List Char := splitHeadSepAux sep l.length l

/-- Python `s.startswith(pre)`. -/
def pyStartsWith (s pre : String) : Bool := pre.data.isPrefixOf s.data

/-- Python `s.endswith(suf)`. -/
def pyEndsWith (s suf : String) : Bool := suf.data.isSuffixOf s.data

/-- Python `str.capitalize()`: first character upper-cased, the rest
lower-cased.  (For membership tests against the all-alphabetic `DAYS`
vocabulary this also coincides with the `str.title()` fallback that
run_ortools_solver tries second.) -/
def pyCapitalize (s : String) : String :=
  match s.toList with
  | [] => ""
  | c :: rest => String.mk (c.toUpper :: rest.map Char.toLower)

/-- `_normalize_text` of solver_runner.py (and the local copies in the two
dashboards): `" ".join(s.split()).strip().lower()`. -/
def normalize_text (s : String) : String :=
  strLower (String.intercalate " " (pySplitWs s))

/-- Python `a in b` on strings (substring containment), on character lists. -/
def substrAux : List Char → List Char → Bool
  | a, [] => a.isEmpty
  | a, c :: rest => a.isPrefixOf (c :: rest) || substrAux a rest

/-- Python `a in b` on strings (substring containment). -/
def isSubstrOf (a b : String) : Bool := substrAux a.toList b.toList

/-- `_parse_period_token` of solver_runner.py: "P1-P3" ↦ (0, 2); any
parse failure yields (0, 0).  Python `int()` tolerates surrounding
whitespace, hence the `pyTrim` before `parseIntStr`. -/
def parse_period_token (token : String) : Int × Int :=
  let t := strUpper (pyTrim token)
  if t = "" then (0, 0)
  else if containsChar t '-' then
    let ab := splitFirstChar '-' t
    match parseIntStr (pyTrim (removeChar 'P' ab.1)),
          parseIntStr (pyTrim (removeChar 'P' ab.2)) with
    | some x, some y => (x - 1, y - 1)
    | _, _ => (0, 0)
  else
    match parseIntStr (pyTrim (removeChar 'P' t)) with
    | some i => (i - 1, i - 1)
    | _ => (0, 0)

/-- A course payload entry (`courses: [...]` of the request). -/
structure Course where
  id : Option Int := none
  course_name : Option String := none
  course_code : Option String := none
  credits : Option Int := none
  sectionLabel : Option String := none
  teacher_id : Option Int := none
deriving Repr, DecidableEq

/-- A constraint payload entry (`constraints: [...]` of the request).
`sectionLabel` embeds the `"section"` key (a Lean keyword), `periodsAlt`
the alternative `"periods"` key that both solvers accept. -/
structure Constraint where
  course_name : Option String := none
  sectionLabel : Option String := none
  day : Option String := none
  period_range : Option String := none
  periodsAlt : Option String := none
  type : Option String := none
  mode : Option String := none
deriving Repr, DecidableEq

/-- Python dict insertion on an association list: overwrite in place if the
key exists (keeping its iteration position), else append. -/
def dictInsert {κ α : Type} [DecidableEq κ] (l : List (κ × α)) (k : κ) (v : α) :
    List (κ × α) :=
  if l.any (fun e => e.1 = k) then
    l.map (fun e => if e.1 = k then (k, v) else e)
  else l ++ [(k, v)]

/-- Python `dict.get`. -/
def dictGet {κ α : Type} [DecidableEq κ] (l : List (κ × α)) (k : κ) : Option α :=
  (l.find? (fun e => e.1 = k)).map (fun e => e.2)

/-- The id-assignment loop shared by run_ortools_solver and
greedy_csp_solver: courses without an `id` receive synthetic ids -1, -2, …;
returns (`cid_list`, `cid_to_course`). -/
def buildCids (courses : List Course) : List Int × List (Int × Course) :=
  let st := courses.foldl
    (fun (st : List Int × List (Int × Course) × Int) c =>
      match c.id with
      | some cid => (st.1 ++ [cid], dictInsert st.2.1 cid c, st.2.2)
      | none => (st.1 ++ [st.2.2], dictInsert st.2.1 st.2.2 c, st.2.2 - 1))
    ([], [], -1)
  (st.1, st.2.1)

/-- `cid_to_course[cid]` (the Python lookup cannot fail where it is used;
the default is never reached for cids produced by the matcher). -/
def courseGet (m : List (Int × Course)) (cid : Int) : Course :=
  (dictGet m cid).getD {}

/-- Constraint section filter text: `(constraint.get("section") or "ALL").strip()`. -/
def consSection (cons : Constraint) : String :=
  pyTrim (strOr (getStr cons.sectionLabel) "ALL")

/-- Course section text as the matcher reads it:
`(c.get("section") or "ALL").strip()`. -/
def courseSection (c : Course) : String :=
  pyTrim (strOr (getStr c.sectionLabel) "ALL")

/-- Tier-1 predicate of `_match_constraint_to_cids` (direct exact matches):
normalized name or code equals the target, and the section filter passes. -/
def tier1Pred (target csec : String) (c : Course) : Bool :=
  (normalize_text (getStr c.course_name) = target ||
    normalize_text (getStr c.course_code) = target) &&
  !(strUpper csec ≠ "ALL" && courseSection c ≠ csec)

/-- Tier-1 loop of `_match_constraint_to_cids`. -/
def matchTier1 (target csec : String) (cidMap : List (Int × Course)) : List Int :=
  (cidMap.filter (fun e => tier1Pred target csec e.2)).map (fun e => e.1)

/-- The token list of tier 2: `target.replace("/", " ").replace("-", " ").split()`. -/
def targetTokens (target : String) : List String :=
  pySplitWs (mapChar '-' ' ' (mapChar '/' ' ' target))

/-- Tier-2 predicate (tolerant substring/token matching). -/
def tier2Pred (target csec : String) (c : Course) : Bool :=
  let name := normalize_text (getStr c.course_name)
  let code := normalize_text (getStr c.course_code)
  !(strUpper csec ≠ "ALL" && courseSection c ≠ csec) &&
  (targetTokens target).any (fun tk =>
    isSubstrOf tk name || isSubstrOf tk code || isSubstrOf name tk || isSubstrOf code tk)

/-- Tier-2 loop of `_match_constraint_to_cids`. -/
def matchTier2 (target csec : String) (cidMap : List (Int × Course)) : List Int :=
  (cidMap.filter (fun e => tier2Pred target csec e.2)).map (fun e => e.1)

/-- Tier-3 predicate (relaxed common prefix/suffix). -/
def tier3Pred (target csec : String) (c : Course) : Bool :=
  let name := normalize_text (getStr c.course_name)
  let code := normalize_text (getStr c.course_code)
  !(strUpper csec ≠ "ALL" && courseSection c ≠ csec) &&
  (pyStartsWith name target || pyEndsWith name target ||
    pyStartsWith code target || pyEndsWith code target)

/-- Tier-3 loop of `_match_constraint_to_cids`. -/
def matchTier3 (target csec : String) (cidMap : List (Int × Course)) : List Int :=
  (cidMap.filter (fun e => tier3Pred target csec e.2)).map (fun e => e.1)

/-- The normalized course reference of a constraint. -/
def consTarget (cons : Constraint) : String :=
  normalize_text (pyTrim (getStr cons.course_name))

/-- `_match_constraint_to_cids` of solver_runner.py: three tiers, the first
non-empty tier wins; an empty normalized target returns `[]` at once. -/
def match_constraint_to_cids (cons : Constraint) (cidMap : List (Int × Course)) :
    List Int :=
  let target := consTarget cons
  let csec := consSection cons
  if target = "" then []
  else
    let m1 := matchTier1 target csec cidMap
    if m1 ≠ [] then m1
    else
      let m2 := matchTier2 target csec cidMap
      if m2 ≠ [] then m2
      else matchTier3 target csec cidMap

/-- A timetable grid: the Python `{day: [cell, ...]}` dict as an association
list (all producers build it with the five `DAYS` as keys, in order). -/
abbrev Grid := List (String × List String)

/-- `{d: [""] * P for d in DAYS}`. -/
def emptyGrid (P : Nat) : Grid := DAYS.map (fun d => (d, List.replicate P ""))

/-- `grid[day][p] = v` (no-op on a missing day or an out-of-range index,
neither of which the embedded call sites reach). -/
def setCell (g : Grid) (day : String) (p : Nat) (v : String) : Grid :=
  g.map (fun e => if e.1 = day then (e.1, e.2.set p v) else e)

/-- `grid[day][p]` read, with `""` for a missing day or index. -/
def getCell (g : Grid) (day : String) (p : Nat) : String :=
  ((dictGet g day).getD []).getD p ""

/-- `lunch - 1 if lunch and 1 <= lunch <= P else None`. -/
def lunchIdxOf (lunch : Int) (P : Nat) : Option Nat :=
  if 1 ≤ lunch ∧ lunch ≤ (P : Int) then some (lunch - 1).toNat else none

/-- `[p for p in range(s, e + 1) if 0 <= p < P and (lunch_idx is None or
p != lunch_idx)]` — the allowed period indices of a constraint.  (For every
`s`, `e` this list equals the Python comprehension: both are the ascending
enumeration of the indices in `[0, P) ∩ [s, e]` off the lunch column.) -/
def periodIndices (s e : Int) (P : Nat) (lunchIdx : Option Nat) : List Nat :=
  (List.range P).filter
    (fun p => s ≤ (p : Int) && (p : Int) ≤ e && !(lunchIdx = some p))

/-- The day name a constraint addresses, as greedy_csp_solver computes it:
`(cons.get("day") or "").strip().capitalize()`. -/
def consDay (cons : Constraint) : String := pyCapitalize (pyTrim (getStr cons.day))

/-- `cons.get("period_range") or cons.get("periods") or ""`. -/
def consPr (cons : Constraint) : String :=
  strOr (getStr cons.period_range) (getStr cons.periodsAlt)

/-- `(cons.get("type") or "Hard").strip().lower()`. -/
def consType (cons : Constraint) : String :=
  strLower (pyTrim (strOr (getStr cons.type) "Hard"))

/-- The allowed period indices greedy_csp_solver computes for a constraint
(clamping `s` below by 0 and `e` above by `P - 1` first). -/
def greedyPis (cons : Constraint) (P : Nat) (lunchIdx : Option Nat) : List Nat :=
  let se := parse_period_token (consPr cons)
  let s := if se.1 < 0 then 0 else se.1
  let e := if se.2 ≥ (P : Int) then (P : Int) - 1 else se.2
  periodIndices s e P lunchIdx

/-- The representative label of a matched course:
`course_name or course_code or f"C{cid}"`. -/
def repLabel (cidMap : List (Int × Course)) (cid : Int) : String :=
  let c := courseGet cidMap cid
  strOr (strOr (getStr c.course_name) (getStr c.course_code)) ("C" ++ toString cid)

/-- One iteration of greedy_csp_solver's constraint-placement loop
(lines 349–404 of solver_runner.py). -/
def greedyPlaceCons (cidMap : List (Int × Course)) (P : Nat)
    (lunchIdx : Option Nat) (grid : Grid) (cons : Constraint) : Grid :=
  let day := consDay cons
  let pr := consPr cons
  if day = "" || pr = "" then grid
  else if !(DAYS.contains day) then grid
  else
    let pis := greedyPis cons P lunchIdx
    if pis = [] then grid
    else
      let cids := match_constraint_to_cids cons cidMap
      if cids = [] then
        let label := getStr cons.course_name
        match pis.find? (fun p => getCell grid day p = "") with
        | some p => setCell grid day p label
        | none => setCell grid day (pis.headD 0) label
      else
        let label := repLabel cidMap (cids.headD 0)
        if consType cons = "exact" then
          pis.foldl (fun g p => if getCell g day p = "" then setCell g day p label else g)
            grid
        else
          match pis.find? (fun p => getCell grid day p = "") with
          | some p => setCell grid day p label
          | none => setCell grid day (pis.headD 0) label

/-- The filler labels: `[c.course_name or c.course_code or f"C{c.id}"
for c in courses] or ["Free"]`; `f"C{None}"` renders as "CNone". -/
def labelsOf (courses : List Course) : List String :=
  let ls := courses.map (fun c =>
    strOr (strOr (getStr c.course_name) (getStr c.course_code))
      ("C" ++ (match c.id with | some i => toString i | none => "None")))
  if ls = [] then ["Free"] else ls

/-- The `(p, d)` scan order of the filler loop: periods outer, days inner. -/
def scanPairs (P : Nat) : List (Nat × String) :=
  (List.range P).flatMap (fun p => DAYS.map (fun d => (p, d)))

/-- One step of the filler loop, threading the round-robin index `idx`. -/
def fillCell (lunchIdx : Option Nat) (shuffled : List String)
    (st : Grid × Nat) (pd : Nat × String) : Grid × Nat :=
  if lunchIdx = some pd.1 then (setCell st.1 pd.2 pd.1 "LUNCH", st.2)
  else if getCell st.1 pd.2 pd.1 = "" then
    (setCell st.1 pd.2 pd.1 (shuffled.getD (st.2 % shuffled.length) ""), st.2 + 1)
  else st

/-- `greedy_csp_solver` of solver_runner.py.  The wall-clock-seeded
`random.shuffle` of the filler labels is the explicit `shuffle` parameter
(`random.shuffle` permutes its input, the hypothesis theorems assume of
`shuffle`); the unused `time_limit` parameter is dropped. -/
def greedy_csp_solver (courses : List Course) (constraints : List Constraint)
    (P : Nat) (lunch : Int) (shuffle : List String → List String) : Grid :=
  let cidMap := (buildCids courses).2
  let lunchIdx := lunchIdxOf lunch P
  let grid1 := constraints.foldl (greedyPlaceCons cidMap P lunchIdx) (emptyGrid P)
  let shuffled := shuffle (labelsOf courses)
  ((scanPairs P).foldl (fillCell lunchIdx shuffled) (grid1, 0)).1

/-- `_parse_period_range` of the dashboards: 1-based inclusive indices,
swapping a descending range; `[]` on parse failure.  `lstrip("P")` strips
leading `P` characters only, and Python `int()` tolerates whitespace. -/
def parse_period_range (pr : String) : List Int :=
  let t := strUpper (pyTrim pr)
  if containsChar t '-' then
    let ab := splitFirstChar '-' t
    match parseIntStr (pyTrim (lstripP (pyTrim ab.1))),
          parseIntStr (pyTrim (lstripP (pyTrim ab.2))) with
    | some st, some en =>
      let lo := if st > en then en else st
      let hi := if st > en then st else en
      (List.range (hi - lo + 1).toNat).map (fun k => lo + (k : Int))
    | _, _ => []
  else
    match parseIntStr (pyTrim (lstripP t)) with
    | some i => [i]
    | _ => []

/-- `str(cell).split(" - ")[0].strip()`. -/
def splitSubj (cell : String) : String :=
  pyTrim (String.mk (splitHeadSep (" - ").data cell.data))

/-- `{str(d).strip().capitalize(): row for d, row in grid.items()}`. -/
def gridNormOf (grid : Grid) : Grid :=
  grid.foldl (fun acc e => dictInsert acc (pyCapitalize (pyTrim e.1)) e.2) []

/-- The tolerant cell comparison of the validator: the normalized subject
equals the target or contains it or is contained in it. -/
def cellMatches (target cell : String) : Bool :=
  cell ≠ "" &&
    (let subj_norm := normalize_text (splitSubj cell)
     subj_norm = target || isSubstrOf target subj_norm || isSubstrOf subj_norm target)

/-- Whether the validator skips a constraint without checking it
(wrong type, blank fields, foreign section, unparseable range). -/
def validatorSkips (lastSection : String) (c : Constraint) : Bool :=
  let c_type := pyTrim (strOr (getStr c.type) "Hard")
  let course_name := pyTrim (getStr c.course_name)
  let sec := pyTrim (strOr (getStr c.sectionLabel) "ALL")
  let day := pyCapitalize (pyTrim (getStr c.day))
  let pr := pyTrim (getStr c.period_range)
  !(strUpper c_type = "HARD" || strUpper c_type = "EXACT") ||
    course_name = "" || day = "" || pr = "" ||
    (strUpper sec ≠ "ALL" && sec ≠ lastSection) ||
    parse_period_range pr = []

/-- Whether a checked constraint is found satisfied: some 1-based period of
its range indexes into the day's row and matches the course text. -/
def consFound (row : List String) (target : String) (periods : List Int) : Bool :=
  periods.any (fun p =>
    0 ≤ p - 1 && p - 1 < (row.length : Int) &&
      cellMatches target (row.getD (p - 1).toNat ""))

/-- The violation message of a failed constraint (list rendering of the
offending cells simplified; the claims only count messages). -/
def violationMsg (course_name day pr : String) (present : List String) : String :=
  "Hard constraint violated: " ++ course_name ++ " expected on " ++ day ++
    " in " ++ pr ++ ". Found: [" ++ String.intercalate ", " present ++ "]"

/-- One iteration of the validator loop over the constraint list. -/
def validateStep (gridNorm : Grid) (lastSection : String)
    (st : Bool × List String) (c : Constraint) : Bool × List String :=
  if validatorSkips lastSection c then st
  else
    let course_name := pyTrim (getStr c.course_name)
    let day := pyCapitalize (pyTrim (getStr c.day))
    let pr := pyTrim (getStr c.period_range)
    let periods := parse_period_range pr
    match dictGet gridNorm day with
    | none =>
      (false, st.2 ++ ["Constraint for " ++ course_name ++ " on " ++ day ++
        " (" ++ pr ++ ") — day missing"])
    | some row =>
      if consFound row (normalize_text course_name) periods then st
      else
        let present := (periods.filter
            (fun p => 0 ≤ p - 1 && p - 1 < (row.length : Int))).map
          (fun p => row.getD (p - 1).toNat "")
        (false, st.2 ++ [violationMsg course_name day pr present])

/-- `_validate_grid_constraints` of teacher_dashboard.py (the admin version
is line-for-line the same check): the constraint list the DAO supplies and
`self._last_section` are explicit parameters.  Note that the loop body is
identical for Hard and for Exact constraints. -/
def validate_grid_constraints (grid : Grid) (constraints : List Constraint)
    (lastSection : String) : Bool × List String :=
  constraints.foldl (validateStep (gridNormOf grid) lastSection) (true, [])

/-- `_diversity_score`: per period column, the number of distinct non-empty,
non-LUNCH labels (lower-cased) across the days, summed over the columns.
The Python float result is integer-valued; it is embedded as a `Nat`. -/
def diversity_score (grid : Grid) : Nat :=
  let days := grid.map (fun e => e.1)
  let periods := (grid.headD ("", [])).2.length
  (List.range periods).foldl (fun sc p =>
    sc + (((days.map (fun d => getCell grid d p)).filter
        (fun v => v ≠ "" && strUpper (pyTrim v) ≠ "LUNCH")).map
      (fun v => strLower (pyTrim v))).eraseDups.length) 0

/-- The candidate swap positions: every `(day index, period)` pair off the
lunch column. -/
def slotsFor (numDays periods : Nat) (lunchIdx : Option Nat) : List (Nat × Nat) :=
  (List.range numDays).flatMap (fun di =>
    ((List.range periods).filter (fun p => !(lunchIdx = some p))).map
      (fun p => (di, p)))

/-- `random.sample(slots, 2)` for one iteration, from a supplied pair of
integers: two distinct positions of `slots` (needs `slots.length ≥ 2`,
which the caller guards). -/
def samplePick (slots : List (Nat × Nat)) (ij : Nat × Nat) :
    (Nat × Nat) × (Nat × Nat) :=
  let n := slots.length
  let ia := ij.1 % n
  let jb0 := ij.2 % (n - 1)
  let jb := if jb0 ≥ ia then jb0 + 1 else jb0
  (slots.getD ia (0, 0), slots.getD jb (0, 0))

/-- The body of `_improve_grid_via_swaps`: one tentative swap per supplied
pick, kept only when the swapped grid stays valid and strictly increases the
diversity score; early exit at 70% of `periods * len(days)` (the float
threshold embedded in exact arithmetic). -/
def improveLoop (constraints : List Constraint) (lastSection : String)
    (days : List String) (periodsN : Nat) (slots : List (Nat × Nat)) :
    Grid → List (Nat × Nat) → Grid
  | best, [] => best
  | best, ij :: rest =>
    let ab := samplePick slots ij
    let day_a := days.getD ab.1.1 ""
    let day_b := days.getD ab.2.1 ""
    let va := getCell best day_a ab.1.2
    let vb := getCell best day_b ab.2.2
    if va = vb then improveLoop constraints lastSection days periodsN slots best rest
    else
      let candidate := setCell (setCell best day_a ab.1.2 vb) day_b ab.2.2 va
      if !(validate_grid_constraints candidate constraints lastSection).1 then
        improveLoop constraints lastSection days periodsN slots best rest
      else if diversity_score best < diversity_score candidate then
        if 7 * (periodsN * days.length) ≤ 10 * diversity_score candidate then candidate
        else improveLoop constraints lastSection days periodsN slots candidate rest
      else improveLoop constraints lastSection days periodsN slots best rest

/-- `_improve_grid_via_swaps` of teacher_dashboard.py: `max_iters` random
draws become the explicit `picks` stream (one pair of integers per
iteration); the validator context is passed through. -/
def improve_grid_via_swaps (constraints : List Constraint) (lastSection : String)
    (grid : Grid) (picks : List (Nat × Nat)) (lunchIdx : Option Nat) : Grid :=
  let days := grid.map (fun e => e.1)
  let periodsN := (grid.headD ("", [])).2.length
  let slots := slotsFor days.length periodsN lunchIdx
  if slots.length < 2 then grid
  else improveLoop constraints lastSection days periodsN slots grid picks

/-- A valuation of the CP-SAT booleans `x[(cid, d, p)]`. -/
abbrev Assignment := Int → Nat → Nat → Bool

/-- All `(day, period)` cells of the week. -/
def weekCells (P : Nat) : List (Nat × Nat) :=
  (List.range DAYS.length).flatMap (fun d => (List.range P).map (fun p => (d, p)))

/-- Number of cells of `cells` where course `cid` is scheduled. -/
def countTrue (a : Assignment) (cid : Int) (cells : List (Nat × Nat)) : Nat :=
  (cells.filter (fun dp => a cid dp.1 dp.2)).length

/-- Minimum-occurrence rule: each course's variables sum to at least 1
(`model.Add(sum(...) >= 1)`; the course's `credits` value is read by the
code but not used in this constraint). -/
def minOccOk (cidList : List Int) (P : Nat) (a : Assignment) : Bool :=
  cidList.all (fun cid => 1 ≤ countTrue a cid (weekCells P))

/-- Daily-uniqueness rule: at most one slot per course per day. -/
def dailyUniqueOk (cidList : List Int) (P : Nat) (a : Assignment) : Bool :=
  cidList.all (fun cid => (List.range DAYS.length).all (fun d =>
    ((List.range P).filter (fun p => a cid d p)).length ≤ 1))

/-- Teacher-conflict rule: courses sharing a (non-None) teacher occupy at
most one of them per cell. -/
def teacherOk (cidMap : List (Int × Course)) (P : Nat) (a : Assignment) : Bool :=
  (cidMap.filterMap (fun e => e.2.teacher_id)).all (fun t =>
    (List.range DAYS.length).all (fun d => (List.range P).all (fun p =>
      (((cidMap.filter (fun e => e.2.teacher_id = some t)).map (fun e => e.1)).filter
        (fun cid => a cid d p)).length ≤ 1)))

/-- Section-conflict rule, grouped by `c.get("section") or "A"`. -/
def sectionConflictOk (cidMap : List (Int × Course)) (P : Nat) (a : Assignment) :
    Bool :=
  (cidMap.map (fun e => strOr (getStr e.2.sectionLabel) "A")).all (fun sec =>
    (List.range DAYS.length).all (fun d => (List.range P).all (fun p =>
      (((cidMap.filter (fun e => strOr (getStr e.2.sectionLabel) "A" = sec)).map
          (fun e => e.1)).filter (fun cid => a cid d p)).length ≤ 1)))

/-- Lunch block: every course's variable at the lunch period is 0. -/
def lunchBlockOk (cidList : List Int) (lunchIdx : Option Nat) (a : Assignment) :
    Bool :=
  match lunchIdx with
  | some li => cidList.all (fun cid =>
      (List.range DAYS.length).all (fun d => a cid d li = false))
  | none => true

/-- The day index run_ortools_solver resolves for a constraint, `none` when
the capitalized day is not a weekday (the `title()` fallback resolves no
further day names, see `pyCapitalize`). -/
def ortoolsDayIdx (cons : Constraint) : Option Nat :=
  let day := pyCapitalize (pyTrim (getStr cons.day))
  if DAYS.contains day then some (DAYS.findIdx (fun d => d = day)) else none

/-- The allowed period indices run_ortools_solver computes
(`s = max(0, s)`, `e = min(P - 1, e)`, then the shared comprehension). -/
def ortoolsPis (cons : Constraint) (P : Nat) (lunchIdx : Option Nat) : List Nat :=
  let se := parse_period_token (pyTrim (consPr cons))
  periodIndices (max 0 se.1) (min ((P : Int) - 1) se.2) P lunchIdx

/-- `enforce_exact`: type "exact", or a non-empty mode containing "exact". -/
def enforceExactOf (cons : Constraint) : Bool :=
  consType cons = "exact" ||
    (getStr cons.mode ≠ "" && isSubstrOf "exact" (strLower (getStr cons.mode)))

/-- The rule run_ortools_solver adds for one input constraint
(lines 238–284); `true` when the constraint is skipped. -/
def ortoolsConsOk (cidMap : List (Int × Course)) (P : Nat)
    (lunchIdx : Option Nat) (a : Assignment) (cons : Constraint) : Bool :=
  if getStr cons.course_name = "" then true
  else
    let day_raw := pyTrim (getStr cons.day)
    let pr := pyTrim (consPr cons)
    if day_raw = "" || pr = "" then true
    else
      match ortoolsDayIdx cons with
      | none => true
      | some didx =>
        let se := parse_period_token pr
        let s := max 0 se.1
        let e := min ((P : Int) - 1) se.2
        if s > e then true
        else
          let cids := match_constraint_to_cids cons cidMap
          if cids = [] then true
          else
            let pis := ortoolsPis cons P lunchIdx
            if pis = [] then true
            else
              let cells := pis.map (fun p => (didx, p))
              if enforceExactOf cons then
                if cids.length = 1 then
                  pis.length ≤ countTrue a (cids.headD 0) cells
                else
                  pis.length ≤ (cids.map (fun cid => countTrue a cid cells)).sum
              else
                1 ≤ (cids.map (fun cid => countTrue a cid cells)).sum

/-- The full constraint set of the CP-SAT model run_ortools_solver builds:
an assignment is a feasible solution iff this holds (the `Maximize`
objective adds no constraint). -/
def ortoolsModelOk (courses : List Course) (constraints : List Constraint)
    (P : Nat) (lunch : Int) (a : Assignment) : Bool :=
  let cids := buildCids courses
  let lunchIdx := lunchIdxOf lunch P
  minOccOk cids.1 P a && dailyUniqueOk cids.1 P a && teacherOk cids.2 P a &&
    sectionConflictOk cids.2 P a && lunchBlockOk cids.1 lunchIdx a &&
    constraints.all (ortoolsConsOk cids.2 P lunchIdx a)

/-- The grid decoding of a feasible assignment (lines 299–319): per cell the
label of the first `cid_list` course scheduled there, `""` when none,
"LUNCH" at the lunch column. -/
def decodeGrid (cidList : List Int) (cidMap : List (Int × Course)) (P : Nat)
    (lunchIdx : Option Nat) (a : Assignment) : Grid :=
  (List.range DAYS.length).map (fun di =>
    (DAYS.getD di "", (List.range P).map (fun p =>
      if lunchIdx = some p then "LUNCH"
      else
        match cidList.find? (fun cid => a cid di p) with
        | some cid =>
          let c := courseGet cidMap cid
          pyTrim (strOr (getStr c.course_name) (getStr c.course_code))
        | none => "")))

/-- `run_ortools_solver`, with the CP-SAT solve call embedded as the
`oracle` outcome: `some a` for a FEASIBLE/OPTIMAL solve with values `a`
(theorems that use it assume `ortoolsModelOk` of `a`), `none` for
infeasible/timeout, and `none` whenever OR-Tools is unavailable. -/
def run_ortools_solver (available : Bool) (oracle : Option Assignment)
    (courses : List Course) (_constraints : List Constraint) (P : Nat)
    (lunch : Int) : Option Grid :=
  if available then
    match oracle with
    | some a =>
      let cids := buildCids courses
      some (decodeGrid cids.1 cids.2 P (lunchIdxOf lunch P) a)
    | none => none
  else none

/-- `run_solver`: the exact path when OR-Tools is available and produced a
(truthy) grid, the greedy fallback otherwise. -/
def run_solver (available : Bool) (oracle : Option Assignment)
    (shuffle : List String → List String) (courses : List Course)
    (constraints : List Constraint) (P : Nat) (lunch : Int) : Grid :=
  match run_ortools_solver available oracle courses constraints P lunch with
  | some g => if g = [] then greedy_csp_solver courses constraints P lunch shuffle else g
  | none => greedy_csp_solver courses constraints P lunch shuffle

/-- Whether the validator loop registers a violation for a constraint:
not skipped, and either its day is missing from the grid or no required
index matches.  (Extracted from `validateStep` for the characterization
theorems.) -/
def validatorFails (gridNorm : Grid) (lastSection : String) (c : Constraint) :
    Bool :=
  !validatorSkips lastSection c &&
    (match dictGet gridNorm (pyCapitalize (pyTrim (getStr c.day))) with
     | none => true
     | some row =>
       !consFound row (normalize_text (pyTrim (getStr c.course_name)))
         (parse_period_range (pyTrim (getStr c.period_range))))

/-- Modelled from the spec wording, for refinement comparison only (not from
the source): an Exact constraint is satisfied only if EVERY required period
index of its range matches the course text via normalized substring
containment. -/
def specExactAllIndices (grid : Grid) (lastSection : String) (c : Constraint) :
    Bool :=
  validatorSkips lastSection c ||
    (match dictGet (gridNormOf grid) (pyCapitalize (pyTrim (getStr c.day))) with
     | none => false
     | some row =>
       (parse_period_range (pyTrim (getStr c.period_range))).all (fun p =>
         0 ≤ p - 1 && p - 1 < (row.length : Int) &&
           cellMatches (normalize_text (pyTrim (getStr c.course_name)))
             (row.getD (p - 1).toNat "")))

/-- `int(c.get("credits") or 1)` — how run_ortools_solver reads a course's
credit count (line 200; the value is not used in any model constraint). -/
def courseCredits (c : Course) : Int :=
  match c.credits with
  | none => 1
  | some 0 => 1
  | some n => n

/-- Number of cells of a grid bearing a given label (a measurement used to
state the credit-count claims). -/
def gridCountLabel (g : Grid) (lab : String) : Nat :=
  (g.map (fun e => (e.2.filter (fun v => v = lab)).length)).sum

/-- Concrete payloads used by counterexamples and witnesses. -/
def mathCourse : Course :=
  { id := some 1, course_name := some "Math", credits := some 2,
    sectionLabel := some "A" }

def englishCourse : Course :=
  { id := some 2, course_name := some "English", credits := some 1,
    sectionLabel := some "A" }

def consExactMath : Constraint :=
  { course_name := some "Math", day := some "Monday",
    period_range := some "P1-P2", type := some "Exact" }

def consHardEnglish : Constraint :=
  { course_name := some "English", day := some "Monday",
    period_range := some "P1", type := some "Hard" }

def consBadRange : Constraint :=
  { course_name := some "Math", day := some "Monday",
    period_range := some "abc", type := some "Hard" }

def sampleCourseMap : List (Int × Course) := [(1, mathCourse), (2, englishCourse)]

def consBadDay : Constraint :=
  { course_name := some "Math", day := some "Funday",
    period_range := some "P1", type := some "Hard" }

def consEmptyName : Constraint := { course_name := some "" }

def emptyNameCourse : Course := { id := some 1, course_name := some "" }

/-- An assignment scheduling course 1 exactly once (Monday, period 1). -/
def aOnce : Assignment := fun cid d p => cid = 1 && d = 0 && p = 0

/-! ### Basic lemmas about cells, rows and grid updates -/

lemma getD_set_self {α : Type} (l : List α) (i : Nat) (v d : α)
    (h : i < l.length) : (l.set i v).getD i d = v := by
  simp [List.getD_eq_getElem?_getD, List.getElem?_set, h]

lemma getD_set_ne {α : Type} (l : List α) {i j : Nat} (v d : α)
    (h : i ≠ j) : (l.set i v).getD j d = l.getD j d := by
  simp [List.getD_eq_getElem?_getD, List.getElem?_set, h]

lemma getD_set_or {α : Type} (l : List α) (i j : Nat) (v d : α) :
    (l.set i v).getD j d = v ∨ (l.set i v).getD j d = l.getD j d := by
  by_cases hij : i = j
  · subst hij
    by_cases hlen : i < l.length
    · exact Or.inl (getD_set_self l i v d hlen)
    · right
      have hnone : l[i]? = none := by
        simpa using List.getElem?_eq_none (Nat.le_of_not_lt hlen)
      simp [List.getD_eq_getElem?_getD, List.getElem?_set, hlen, hnone]
  · exact Or.inr (getD_set_ne l v d hij)

/-- The keys of a grid, in order. -/
def GridKeys (g : Grid) : List String := g.map (fun e => e.1)

/-- All rows of a grid have length `P`. -/
def RowsLen (g : Grid) (P : Nat) : Prop := ∀ e ∈ g, e.2.length = P

lemma gridKeys_setCell (g : Grid) (d : String) (p : Nat) (v : String) :
    GridKeys (setCell g d p v) = GridKeys g := by
  simp only [GridKeys, setCell, List.map_map]
  apply List.map_congr_left
  intro e _
  by_cases h : e.1 = d <;> simp [h]

lemma rowsLen_setCell {g : Grid} {P : Nat} (d : String) (p : Nat) (v : String)
    (h : RowsLen g P) : RowsLen (setCell g d p v) P := by
  intro e he
  simp only [setCell, List.mem_map] at he
  obtain ⟨e0, he0, heq⟩ := he
  by_cases hd : e0.1 = d
  · simp only [hd, if_pos rfl] at heq
    rw [← heq]
    simpa using h e0 he0
  · rw [if_neg (by simp [hd])] at heq
    rw [← heq]; exact h e0 he0

lemma mem_setCell {g : Grid} {d : String} {p : Nat} {v : String} {e : String × List String}
    (he : e ∈ setCell g d p v) :
    ∃ e0 ∈ g, e.1 = e0.1 ∧ (e.2 = e0.2 ∨ (e0.1 = d ∧ e.2 = e0.2.set p v)) := by
  simp only [setCell, List.mem_map] at he
  obtain ⟨e0, he0, heq⟩ := he
  by_cases hd : e0.1 = d
  · refine ⟨e0, he0, ?_, Or.inr ⟨hd, ?_⟩⟩ <;> simp [← heq, hd]
  · exact ⟨e0, he0, by simp [← heq, hd], Or.inl (by simp [← heq, hd])⟩

lemma emptyGrid_keys (P : Nat) : GridKeys (emptyGrid P) = DAYS := by
  simp only [GridKeys, emptyGrid, List.map_map]
  exact List.map_id'' (fun _ => rfl) DAYS

lemma emptyGrid_rowsLen (P : Nat) : RowsLen (emptyGrid P) P := by
  intro e he
  simp only [emptyGrid, List.mem_map] at he
  obtain ⟨d, _, heq⟩ := he
  simp [← heq]

lemma emptyGrid_cells (P : Nat) (e : String × List String) (he : e ∈ emptyGrid P)
    (p : Nat) : e.2.getD p "" = "" := by
  simp only [emptyGrid, List.mem_map] at he
  obtain ⟨d, _, heq⟩ := he
  rw [← heq]
  by_cases h : p < P
  · simp [List.getD_eq_getElem?_getD, List.getElem?_replicate, h]
  · simp [List.getD_eq_getElem?_getD, List.getElem?_eq_none, h,
      Nat.le_of_not_lt (by simpa using h)]

lemma dictGet_cons {α : Type} (x : String × α) (l : List (String × α)) (k : String) :
    dictGet (x :: l) k = if x.1 = k then some x.2 else dictGet l k := by
  by_cases h : x.1 = k <;> simp [dictGet, List.find?_cons, h]

lemma setCell_cons (x : String × List String) (l : Grid) (d : String) (p : Nat)
    (v : String) :
    setCell (x :: l) d p v =
      (x.1, if x.1 = d then x.2.set p v else x.2) :: setCell l d p v := by
  by_cases h : x.1 = d <;> simp [setCell, h]

lemma dictGet_setCell (g : Grid) (d : String) (p : Nat) (v : String) (d' : String) :
    dictGet (setCell g d p v) d' =
      if d' = d then (dictGet g d').map (fun r => r.set p v) else dictGet g d' := by
  induction g with
  | nil => by_cases h : d' = d <;> simp [dictGet, setCell, h]
  | cons x t ih =>
    rw [setCell_cons, dictGet_cons, dictGet_cons]
    by_cases hx : x.1 = d'
    · by_cases hd : d' = d
      · simp [hx, hd, hx.trans hd]
      · have : ¬ x.1 = d := fun h => hd (hx.symm.trans h)
        simp [hx, hd, this]
    · by_cases hd : d' = d
      · subst hd
        simp [hx, ih]
      · simp [hx, hd, ih]

lemma getCell_of_dictGet_some {g : Grid} {d : String} {r : List String}
    (h : dictGet g d = some r) (p : Nat) : getCell g d p = r.getD p "" := by
  simp [getCell, h]

lemma getCell_of_dictGet_none {g : Grid} {d : String}
    (h : dictGet g d = none) (p : Nat) : getCell g d p = "" := by
  simp [getCell, h]

lemma getCell_setCell_ne_day {g : Grid} {d d' : String} (p p' : Nat) (v : String)
    (h : d' ≠ d) : getCell (setCell g d p v) d' p' = getCell g d' p' := by
  simp [getCell, dictGet_setCell, h]

lemma getCell_setCell_ne_p {g : Grid} (d d' : String) {p p' : Nat} (v : String)
    (h : p ≠ p') : getCell (setCell g d p v) d' p' = getCell g d' p' := by
  by_cases hd : d' = d
  · subst hd
    cases hgd : dictGet g d' with
    | none =>
      have h1 : dictGet (setCell g d' p v) d' = none := by
        rw [dictGet_setCell, if_pos rfl, hgd]; rfl
      rw [getCell_of_dictGet_none h1, getCell_of_dictGet_none hgd]
    | some r =>
      have h1 : dictGet (setCell g d' p v) d' = some (r.set p v) := by
        rw [dictGet_setCell, if_pos rfl, hgd]; rfl
      rw [getCell_of_dictGet_some h1, getCell_of_dictGet_some hgd]
      exact getD_set_ne r v "" h
  · exact getCell_setCell_ne_day p p' v hd

lemma dictGet_of_mem_keys {g : Grid} {d : String} (h : d ∈ GridKeys g) :
    ∃ r, dictGet g d = some r ∧ (d, r) ∈ g := by
  induction g with
  | nil => simp [GridKeys] at h
  | cons x t ih =>
    by_cases hx : x.1 = d
    · exact ⟨x.2, by rw [dictGet_cons, if_pos hx], by
        have : x = (d, x.2) := by rw [← hx]
        rw [← this]; exact List.mem_cons_self x t⟩
    · have ht : d ∈ GridKeys t := by
        simp only [GridKeys, List.map_cons, List.mem_cons] at h
        rcases h with h | h
        · exact absurd h.symm hx
        · exact h
      obtain ⟨r, hr, hm⟩ := ih ht
      exact ⟨r, by rw [dictGet_cons, if_neg hx]; exact hr, List.mem_cons_of_mem _ hm⟩

lemma getCell_setCell_self {g : Grid} {d : String} {p : Nat} {P : Nat} (v : String)
    (hk : d ∈ GridKeys g) (hl : RowsLen g P) (hp : p < P) :
    getCell (setCell g d p v) d p = v := by
  obtain ⟨r, hr, hm⟩ := dictGet_of_mem_keys hk
  have hlen : r.length = P := hl (d, r) hm
  have h1 : dictGet (setCell g d p v) d = some (r.set p v) := by
    rw [dictGet_setCell, if_pos rfl, hr]; rfl
  rw [getCell_of_dictGet_some h1, getD_set_self _ _ _ _ (hlen ▸ hp)]

lemma getCell_setCell_or (g : Grid) (d d' : String) (p p' : Nat) (v : String) :
    getCell (setCell g d p v) d' p' = v ∨
      getCell (setCell g d p v) d' p' = getCell g d' p' := by
  by_cases hd : d' = d
  · subst hd
    cases hgd : dictGet g d' with
    | none =>
      refine Or.inr ?_
      have h1 : dictGet (setCell g d' p v) d' = none := by
        rw [dictGet_setCell, if_pos rfl, hgd]; rfl
      rw [getCell_of_dictGet_none h1, getCell_of_dictGet_none hgd]
    | some r =>
      have h1 : dictGet (setCell g d' p v) d' = some (r.set p v) := by
        rw [dictGet_setCell, if_pos rfl, hgd]; rfl
      rw [getCell_of_dictGet_some h1, getCell_of_dictGet_some hgd]
      exact getD_set_or r p p' v ""
  · exact Or.inr (getCell_setCell_ne_day p p' v hd)

lemma mem_of_dictGet_some {α : Type} {g : List (String × α)} {d : String} {r : α}
    (h : dictGet g d = some r) : (d, r) ∈ g := by
  induction g with
  | nil => simp [dictGet] at h
  | cons x t ih =>
    rw [dictGet_cons] at h
    by_cases hx : x.1 = d
    · rw [if_pos hx, Option.some_inj] at h
      have : x = (d, r) := by
        rw [← hx, ← h]
      rw [← this]
      exact List.mem_cons_self x t
    · rw [if_neg hx] at h
      exact List.mem_cons_of_mem _ (ih h)

lemma getCell_emptyGrid (P : Nat) (d : String) (p : Nat) :
    getCell (emptyGrid P) d p = "" := by
  cases hgd : dictGet (emptyGrid P) d with
  | none => exact getCell_of_dictGet_none hgd p
  | some r =>
    rw [getCell_of_dictGet_some hgd]
    exact emptyGrid_cells P (d, r) (mem_of_dictGet_some hgd) p

lemma foldl_inv {α β : Type} {f : β → α → β} {Q : β → Prop}
    (h : ∀ b a, Q b → Q (f b a)) :
    ∀ (l : List α) (b : β), Q b → Q (l.foldl f b) := by
  intro l
  induction l with
  | nil => intro b hb; exact hb
  | cons a t ih => intro b hb; exact ih _ (h b a hb)

/-- Keys and row lengths are a single preserved shape predicate. -/
def GridShape (P : Nat) (g : Grid) : Prop := GridKeys g = DAYS ∧ RowsLen g P

lemma gridShape_setCell {P : Nat} {g : Grid} (d : String) (p : Nat) (v : String)
    (h : GridShape P g) : GridShape P (setCell g d p v) :=
  ⟨(gridKeys_setCell g d p v).trans h.1, rowsLen_setCell d p v h.2⟩

lemma gridShape_emptyGrid (P : Nat) : GridShape P (emptyGrid P) :=
  ⟨emptyGrid_keys P, emptyGrid_rowsLen P⟩

lemma gridShape_greedyPlaceCons {P : Nat} {g : Grid}
    (cidMap : List (Int × Course)) (lunchIdx : Option Nat) (cons : Constraint)
    (h : GridShape P g) :
    GridShape P (greedyPlaceCons cidMap P lunchIdx g cons) := by
  unfold greedyPlaceCons
  dsimp only
  repeat' split
  all_goals first
    | exact h
    | exact gridShape_setCell _ _ _ h
    | exact foldl_inv (fun b a hb => by
        split
        · exact gridShape_setCell _ _ _ hb
        · exact hb) _ _ h

lemma gridShape_fillCell {P : Nat} (lunchIdx : Option Nat) (shuffled : List String)
    {st : Grid × Nat} (pd : Nat × String) (h : GridShape P st.1) :
    GridShape P (fillCell lunchIdx shuffled st pd).1 := by
  unfold fillCell
  split
  · exact gridShape_setCell _ _ _ h
  split
  · exact gridShape_setCell _ _ _ h
  · exact h

lemma gridShape_fillFold {P : Nat} (lunchIdx : Option Nat) (shuffled : List String)
    (pairs : List (Nat × String)) {st : Grid × Nat} (h : GridShape P st.1) :
    GridShape P ((pairs.foldl (fillCell lunchIdx shuffled) st).1) := by
  induction pairs generalizing st with
  | nil => exact h
  | cons pd rest ih => exact ih (gridShape_fillCell lunchIdx shuffled pd h)

lemma gridShape_greedy (courses : List Course) (constraints : List Constraint)
    (P : Nat) (lunch : Int) (shuffle : List String → List String) :
    GridShape P (greedy_csp_solver courses constraints P lunch shuffle) := by
  unfold greedy_csp_solver
  exact gridShape_fillFold _ _ _
    (foldl_inv (fun b a hb => gridShape_greedyPlaceCons _ _ _ hb) _ _
      (gridShape_emptyGrid P))

/-! ### Behaviour of the filler loop -/

lemma fillCell_keep_lunch {li : Nat} {sh : List String} {st : Grid × Nat}
    (pd : Nat × String) {d : String}
    (hv : getCell st.1 d li = "LUNCH") :
    getCell (fillCell (some li) sh st pd).1 d li = "LUNCH" := by
  unfold fillCell
  split
  · rcases getCell_setCell_or st.1 pd.2 d pd.1 li "LUNCH" with h | h
    · exact h
    · rw [h]; exact hv
  split
  · rename_i hb _
    have hpd : pd.1 ≠ li := fun h => hb (by simp [h])
    rw [getCell_setCell_ne_p _ _ _ hpd]
    exact hv
  · exact hv

lemma fillFold_keep_lunch {li : Nat} {sh : List String} {d : String} :
    ∀ (pairs : List (Nat × String)) (st : Grid × Nat),
      getCell st.1 d li = "LUNCH" →
      getCell ((pairs.foldl (fillCell (some li) sh) st).1) d li = "LUNCH" := by
  intro pairs
  induction pairs with
  | nil => intro st hv; exact hv
  | cons pd rest ih => intro st hv; exact ih _ (fillCell_keep_lunch pd hv)

lemma fillFold_lunch {P li : Nat} {sh : List String} {d : String} :
    ∀ (pairs : List (Nat × String)) (st : Grid × Nat),
      (li, d) ∈ pairs → d ∈ DAYS → GridShape P st.1 → li < P →
      getCell ((pairs.foldl (fillCell (some li) sh) st).1) d li = "LUNCH" := by
  intro pairs
  induction pairs with
  | nil => intro st hmem; simp at hmem
  | cons pd rest ih =>
    intro st hmem hd hshape hli
    by_cases hpd : pd = (li, d)
    · subst hpd
      rw [List.foldl_cons]
      apply fillFold_keep_lunch
      have hstep : (fillCell (some li) sh st (li, d)).1 = setCell st.1 d li "LUNCH" := by
        unfold fillCell
        rw [if_pos rfl]
      rw [hstep]
      exact getCell_setCell_self "LUNCH" (hshape.1 ▸ hd) hshape.2 hli
    · have hmem' : (li, d) ∈ rest := by
        rcases List.mem_cons.1 hmem with h | h
        · exact absurd h.symm hpd
        · exact h
      rw [List.foldl_cons]
      exact ih _ hmem' hd (gridShape_fillCell _ _ pd hshape) hli

lemma fillCell_keep_value {lunchIdx : Option Nat} {sh : List String}
    {st : Grid × Nat} (pd : Nat × String) {d : String} {p : Nat} {v : String}
    (hnl : lunchIdx ≠ some p) (hvne : v ≠ "")
    (hv : getCell st.1 d p = v) :
    getCell (fillCell lunchIdx sh st pd).1 d p = v := by
  unfold fillCell
  split
  · rename_i hb
    have hpd : pd.1 ≠ p := fun h => hnl (h ▸ hb)
    rw [getCell_setCell_ne_p _ _ _ hpd]
    exact hv
  split
  · rename_i hb hcell
    by_cases hpd : pd.1 = p
    · by_cases hday : pd.2 = d
      · exact absurd (by rw [← hday, ← hpd]; exact hcell) (hv ▸ hvne)
      · rw [getCell_setCell_ne_day _ _ _ (fun h => hday h.symm)]
        exact hv
    · rw [getCell_setCell_ne_p _ _ _ hpd]
      exact hv
  · exact hv

lemma fillFold_keep_value {lunchIdx : Option Nat} {sh : List String} {d : String}
    {p : Nat} {v : String} (hnl : lunchIdx ≠ some p) (hvne : v ≠ "") :
    ∀ (pairs : List (Nat × String)) (st : Grid × Nat),
      getCell st.1 d p = v →
      getCell ((pairs.foldl (fillCell lunchIdx sh) st).1) d p = v := by
  intro pairs
  induction pairs with
  | nil => intro st hv; exact hv
  | cons pd rest ih => intro st hv; exact ih _ (fillCell_keep_value pd hnl hvne hv)

lemma fillCell_keep_nonempty {lunchIdx : Option Nat} {sh : List String}
    {st : Grid × Nat} (pd : Nat × String) {d : String} {p : Nat}
    (hsh : ∀ n, sh.getD (n % sh.length) "" ≠ "")
    (hv : getCell st.1 d p ≠ "") :
    getCell (fillCell lunchIdx sh st pd).1 d p ≠ "" := by
  unfold fillCell
  split
  · rcases getCell_setCell_or st.1 pd.2 d pd.1 p "LUNCH" with h | h
    · rw [h]; simp
    · rw [h]; exact hv
  split
  · rcases getCell_setCell_or st.1 pd.2 d pd.1 p (sh.getD (st.2 % sh.length) "") with h | h
    · rw [h]; exact hsh st.2
    · rw [h]; exact hv
  · exact hv

lemma fillFold_keep_nonempty {lunchIdx : Option Nat} {sh : List String}
    {d : String} {p : Nat} (hsh : ∀ n, sh.getD (n % sh.length) "" ≠ "") :
    ∀ (pairs : List (Nat × String)) (st : Grid × Nat),
      getCell st.1 d p ≠ "" →
      getCell ((pairs.foldl (fillCell lunchIdx sh) st).1) d p ≠ "" := by
  intro pairs
  induction pairs with
  | nil => intro st hv; exact hv
  | cons pd rest ih => intro st hv; exact ih _ (fillCell_keep_nonempty pd hsh hv)

lemma fillFold_nonempty {P : Nat} {lunchIdx : Option Nat} {sh : List String}
    {d : String} {p : Nat} (hsh : ∀ n, sh.getD (n % sh.length) "" ≠ "") :
    ∀ (pairs : List (Nat × String)) (st : Grid × Nat),
      (p, d) ∈ pairs → d ∈ DAYS → GridShape P st.1 → p < P →
      getCell ((pairs.foldl (fillCell lunchIdx sh) st).1) d p ≠ "" := by
  intro pairs
  induction pairs with
  | nil => intro st hmem; simp at hmem
  | cons pd rest ih =>
    intro st hmem hd hshape hp
    by_cases hpd : pd = (p, d)
    · subst hpd
      rw [List.foldl_cons]
      apply fillFold_keep_nonempty hsh
      unfold fillCell
      split
      · rw [getCell_setCell_self "LUNCH" (hshape.1 ▸ hd) hshape.2 hp]
        simp
      split
      · rw [getCell_setCell_self _ (hshape.1 ▸ hd) hshape.2 hp]
        exact hsh st.2
      · rename_i hb hcell
        exact hcell
    · have hmem' : (p, d) ∈ rest := by
        rcases List.mem_cons.1 hmem with h | h
        · exact absurd h.symm hpd
        · exact h
      rw [List.foldl_cons]
      exact ih _ hmem' hd (gridShape_fillCell _ _ pd hshape) hp

lemma mem_scanPairs {P p : Nat} {d : String} (hd : d ∈ DAYS) (hp : p < P) :
    (p, d) ∈ scanPairs P := by
  simp only [scanPairs, List.mem_flatMap, List.mem_map]
  exact ⟨p, List.mem_range.2 hp, d, hd, rfl⟩

lemma strOr_ne_of_right {a b : String} (h : b ≠ "") : strOr a b ≠ "" := by
  unfold strOr
  split
  · exact h
  · assumption

lemma cPrefix_ne (s : String) : ("C" ++ s) ≠ "" := by
  intro h
  have := congrArg String.length h
  simp [String.length_append] at this
  exact absurd this.1 (by decide)

lemma labelsOf_ne_nil (courses : List Course) : labelsOf courses ≠ [] := by
  cases courses with
  | nil => simp [labelsOf]
  | cons c t => simp [labelsOf]

lemma labelsOf_values (courses : List Course) :
    ∀ x ∈ labelsOf courses, x ≠ "" := by
  cases courses with
  | nil =>
    intro x hx
    simp [labelsOf] at hx
    simp [hx]
  | cons c t =>
    intro x hx
    have hx' : x ∈ List.map (fun c =>
        strOr (strOr (getStr c.course_name) (getStr c.course_code))
          ("C" ++ (match c.id with | some i => toString i | none => "None")))
        (c :: t) := by
      simpa [labelsOf] using hx
    obtain ⟨c0, _, hc0⟩ := List.mem_map.1 hx'
    rw [← hc0]
    exact strOr_ne_of_right (cPrefix_ne _)

lemma shuffled_getD_ne {sh : List String} {courses : List Course}
    (hperm : sh.Perm (labelsOf courses)) :
    ∀ n, sh.getD (n % sh.length) "" ≠ "" := by
  intro n
  have hlen : 0 < sh.length := by
    rw [hperm.length_eq]
    exact List.length_pos.2 (labelsOf_ne_nil courses)
  have hi : n % sh.length < sh.length := Nat.mod_lt _ hlen
  rw [List.getD_eq_getElem?_getD, List.getElem?_eq_getElem hi]
  exact labelsOf_values courses _ (hperm.mem_iff.1 (List.getElem_mem hi))

lemma dictGet_entry_of_nodup {g : Grid} (hnd : (GridKeys g).Nodup)
    {e : String × List String} (he : e ∈ g) : dictGet g e.1 = some e.2 := by
  induction g with
  | nil => simp at he
  | cons x t ih =>
    rw [dictGet_cons]
    rcases List.mem_cons.1 he with h | h
    · subst h
      rw [if_pos rfl]
    · have hx : x.1 ≠ e.1 := by
        intro hx
        have h1 : x.1 ∈ GridKeys t := by
          rw [hx]
          exact List.mem_map.2 ⟨e, h, rfl⟩
        exact (List.nodup_cons.1 hnd).1 h1
      rw [if_neg hx]
      exact ih (List.nodup_cons.1 hnd).2 h

lemma entry_getD_of_getCell {g : Grid} {P : Nat} (hshape : GridShape P g)
    {v : String} {p : Nat} (h : ∀ d ∈ DAYS, getCell g d p = v) :
    ∀ e ∈ g, e.2.getD p "" = v := by
  intro e he
  have hd : e.1 ∈ DAYS := hshape.1 ▸ List.mem_map.2 ⟨e, he, rfl⟩
  have hnd : (GridKeys g).Nodup := by
    rw [hshape.1]
    decide
  have := h e.1 hd
  rwa [getCell_of_dictGet_some (dictGet_entry_of_nodup hnd he) p] at this

lemma lunchIdxOf_lt {lunch : Int} {P : Nat} {li : Nat}
    (h : lunchIdxOf lunch P = some li) : li < P := by
  unfold lunchIdxOf at h
  split at h
  · rename_i hc
    rw [Option.some_inj] at h
    omega
  · simp at h

lemma greedy_getCell_lunch (courses : List Course) (constraints : List Constraint)
    (P : Nat) (lunch : Int) (shuffle : List String → List String) {li : Nat}
    (hli : lunchIdxOf lunch P = some li) :
    ∀ d ∈ DAYS, getCell (greedy_csp_solver courses constraints P lunch shuffle) d li
      = "LUNCH" := by
  intro d hd
  unfold greedy_csp_solver
  rw [hli]
  exact fillFold_lunch _ _ (mem_scanPairs hd (lunchIdxOf_lt hli)) hd
    (foldl_inv (fun b a hb => gridShape_greedyPlaceCons _ _ _ hb) _ _
      (gridShape_emptyGrid P))
    (lunchIdxOf_lt hli)

/-! ### Shape of the decoded exact-solver grid -/

lemma getD_map_range {α : Type} {n i : Nat} (f : Nat → α) (d : α) (hi : i < n) :
    ((List.range n).map f).getD i d = f i := by
  rw [List.getD_eq_getElem?_getD, List.getElem?_map, List.getElem?_range hi]
  rfl

lemma decode_keys (cidList : List Int) (cidMap : List (Int × Course)) (P : Nat)
    (lunchIdx : Option Nat) (a : Assignment) :
    GridKeys (decodeGrid cidList cidMap P lunchIdx a) = DAYS := rfl

lemma decode_rowsLen (cidList : List Int) (cidMap : List (Int × Course)) (P : Nat)
    (lunchIdx : Option Nat) (a : Assignment) :
    RowsLen (decodeGrid cidList cidMap P lunchIdx a) P := by
  intro e he
  simp only [decodeGrid, List.mem_map] at he
  obtain ⟨di, _, heq⟩ := he
  simp [← heq]

lemma decode_ne_nil (cidList : List Int) (cidMap : List (Int × Course)) (P : Nat)
    (lunchIdx : Option Nat) (a : Assignment) :
    decodeGrid cidList cidMap P lunchIdx a ≠ [] := by
  simp [decodeGrid, List.map_eq_nil_iff, List.range_eq_nil, DAYS]

lemma decode_lunch (cidList : List Int) (cidMap : List (Int × Course)) (P : Nat)
    {li : Nat} (a : Assignment) (hli : li < P) :
    ∀ e ∈ decodeGrid cidList cidMap P (some li) a, e.2.getD li "" = "LUNCH" := by
  intro e he
  simp only [decodeGrid, List.mem_map] at he
  obtain ⟨di, _, heq⟩ := he
  rw [← heq]
  simp only []
  rw [getD_map_range _ _ hli]
  simp

/-! ### Behaviour of the local-improvement pass -/

lemma samplePick_mem {slots : List (Nat × Nat)} (ij : Nat × Nat)
    (h2 : 2 ≤ slots.length) :
    (samplePick slots ij).1 ∈ slots ∧ (samplePick slots ij).2 ∈ slots := by
  unfold samplePick
  dsimp only
  have hn : 0 < slots.length := by omega
  have hia : ij.1 % slots.length < slots.length := Nat.mod_lt _ hn
  have hjb0 : ij.2 % (slots.length - 1) < slots.length - 1 :=
    Nat.mod_lt _ (by omega)
  constructor
  · rw [List.getD_eq_getElem?_getD, List.getElem?_eq_getElem hia]
    exact List.getElem_mem hia
  · have hjb : (if ij.2 % (slots.length - 1) ≥ ij.1 % slots.length then
        ij.2 % (slots.length - 1) + 1 else ij.2 % (slots.length - 1)) <
        slots.length := by
      split <;> omega
    rw [List.getD_eq_getElem?_getD, List.getElem?_eq_getElem hjb]
    exact List.getElem_mem hjb

lemma slotsFor_ne_lunch {nd np li : Nat} :
    ∀ s ∈ slotsFor nd np (some li), s.2 ≠ li := by
  intro s hs
  simp only [slotsFor, List.mem_flatMap, List.mem_map, List.mem_filter] at hs
  obtain ⟨di, _, p, ⟨_, hp⟩, heq⟩ := hs
  rw [← heq]
  have hlip : ¬ li = p := by simpa using hp
  exact fun hh => hlip hh.symm

lemma lunchCol_setCell {g : Grid} {d : String} {p li : Nat} {v : String}
    (hp : p ≠ li) (h : ∀ e ∈ g, e.2.getD li "" = "LUNCH") :
    ∀ e ∈ setCell g d p v, e.2.getD li "" = "LUNCH" := by
  intro e he
  obtain ⟨e0, he0, _, hcase⟩ := mem_setCell he
  rcases hcase with hcase | hcase
  · rw [hcase]; exact h e0 he0
  · rw [hcase.2, getD_set_ne _ _ _ hp]
    exact h e0 he0

lemma improveLoop_lunch {cs : List Constraint} {ls : String} {days : List String}
    {pn : Nat} {slots : List (Nat × Nat)} {li : Nat}
    (hslots : ∀ ij : Nat × Nat,
      (samplePick slots ij).1.2 ≠ li ∧ (samplePick slots ij).2.2 ≠ li) :
    ∀ (picks : List (Nat × Nat)) (best : Grid),
      (∀ e ∈ best, e.2.getD li "" = "LUNCH") →
      ∀ e ∈ improveLoop cs ls days pn slots best picks, e.2.getD li "" = "LUNCH" := by
  intro picks
  induction picks with
  | nil => intro best h; exact h
  | cons ij rest ih =>
    intro best h
    unfold improveLoop
    dsimp only
    have hcand : ∀ e ∈ setCell
        (setCell best (days.getD (samplePick slots ij).1.1 "")
          (samplePick slots ij).1.2
          (getCell best (days.getD (samplePick slots ij).2.1 "")
            (samplePick slots ij).2.2))
        (days.getD (samplePick slots ij).2.1 "") (samplePick slots ij).2.2
        (getCell best (days.getD (samplePick slots ij).1.1 "")
          (samplePick slots ij).1.2), e.2.getD li "" = "LUNCH" :=
      lunchCol_setCell (hslots ij).2 (lunchCol_setCell (hslots ij).1 h)
    split
    · exact ih best h
    split
    · exact ih best h
    split
    · split
      · exact hcand
      · exact ih _ hcand
    · exact ih best h

lemma improve_lunch {cs : List Constraint} {ls : String} {g : Grid}
    {picks : List (Nat × Nat)} {li : Nat}
    (h : ∀ e ∈ g, e.2.getD li "" = "LUNCH") :
    ∀ e ∈ improve_grid_via_swaps cs ls g picks (some li),
      e.2.getD li "" = "LUNCH" := by
  unfold improve_grid_via_swaps
  dsimp only
  split
  · exact h
  · rename_i hlen
    exact improveLoop_lunch
      (fun ij => ⟨slotsFor_ne_lunch _ (samplePick_mem ij (by omega)).1,
        slotsFor_ne_lunch _ (samplePick_mem ij (by omega)).2⟩) picks g h

lemma improveLoop_score_valid {cs : List Constraint} {ls : String}
    {days : List String} {pn : Nat} {slots : List (Nat × Nat)} :
    ∀ (picks : List (Nat × Nat)) (best : Grid),
      diversity_score best ≤
        diversity_score (improveLoop cs ls days pn slots best picks) ∧
      ((validate_grid_constraints best cs ls).1 = true →
        (validate_grid_constraints (improveLoop cs ls days pn slots best picks)
          cs ls).1 = true) := by
  intro picks
  induction picks with
  | nil => intro best; exact ⟨le_refl _, fun h => h⟩
  | cons ij rest ih =>
    intro best
    unfold improveLoop
    dsimp only
    split
    · exact ih best
    split
    · exact ih best
    split
    · rename_i hvalid hsc
      simp only [Bool.not_eq_true, Bool.not_eq_false, Bool.not_eq_true'] at hvalid
      split
      · exact ⟨le_of_lt hsc, fun _ => hvalid⟩
      · exact ⟨le_trans (le_of_lt hsc) (ih _).1, fun _ => (ih _).2 hvalid⟩
    · exact ih best

lemma improve_score_valid {cs : List Constraint} {ls : String} {g : Grid}
    {picks : List (Nat × Nat)} {lunchIdx : Option Nat} :
    diversity_score g ≤
      diversity_score (improve_grid_via_swaps cs ls g picks lunchIdx) ∧
    ((validate_grid_constraints g cs ls).1 = true →
      (validate_grid_constraints (improve_grid_via_swaps cs ls g picks lunchIdx)
        cs ls).1 = true) := by
  unfold improve_grid_via_swaps
  dsimp only
  split
  · exact ⟨le_refl _, fun h => h⟩
  · exact improveLoop_score_valid picks g

lemma entry_getD_eq_getCell {g : Grid} {P : Nat} (hshape : GridShape P g)
    {e : String × List String} (he : e ∈ g) (p : Nat) :
    e.2.getD p "" = getCell g e.1 p := by
  have hnd : (GridKeys g).Nodup := by
    rw [hshape.1]
    decide
  exact (getCell_of_dictGet_some (dictGet_entry_of_nodup hnd he) p).symm

lemma entry_key_mem_days {g : Grid} {P : Nat} (hshape : GridShape P g)
    {e : String × List String} (he : e ∈ g) : e.1 ∈ DAYS :=
  hshape.1 ▸ List.mem_map.2 ⟨e, he, rfl⟩

/-! ### The Exact branch of the greedy constraint placement -/

lemma repLabel_ne (m : List (Int × Course)) (cid : Int) : repLabel m cid ≠ "" :=
  strOr_ne_of_right (cPrefix_ne _)

lemma exactFold_keep {day : String} {label : String} {q : Nat} :
    ∀ (l : List Nat) (g : Grid), q ∉ l →
      getCell (l.foldl
        (fun g p => if getCell g day p = "" then setCell g day p label else g) g)
        day q = getCell g day q := by
  intro l
  induction l with
  | nil => intro g _; rfl
  | cons r rest ih =>
    intro g hq
    have hrq : r ≠ q := fun h => hq (h ▸ List.mem_cons_self r rest)
    rw [List.foldl_cons]
    rw [ih _ (fun h => hq (List.mem_cons_of_mem _ h))]
    split
    · exact getCell_setCell_ne_p _ _ _ hrq
    · rfl

lemma exactFold_sets {P : Nat} {day label : String} :
    ∀ (l : List Nat) (g : Grid), l.Nodup → day ∈ DAYS → GridShape P g →
      (∀ p ∈ l, p < P) → (∀ p ∈ l, getCell g day p = "") →
      ∀ p ∈ l, getCell (l.foldl
        (fun g p => if getCell g day p = "" then setCell g day p label else g) g)
        day p = label := by
  intro l
  induction l with
  | nil => intro g _ _ _ _ _ p hp; simp at hp
  | cons q rest ih =>
    intro g hnd hday hshape hlt hempty p hp
    have hq : getCell g day q = "" := hempty q (List.mem_cons_self q rest)
    rw [List.foldl_cons, if_pos hq]
    have hshape' : GridShape P (setCell g day q label) :=
      gridShape_setCell _ _ _ hshape
    rcases List.mem_cons.1 hp with hpq | hpr
    · subst hpq
      rw [exactFold_keep rest _ (List.nodup_cons.1 hnd).1]
      exact getCell_setCell_self label (hshape.1 ▸ hday) hshape.2
        (hlt p (List.mem_cons_self p rest))
    · refine ih _ (List.nodup_cons.1 hnd).2 hday hshape'
        (fun r hr => hlt r (List.mem_cons_of_mem _ hr)) ?_ p hpr
      intro r hr
      have hrq : q ≠ r := fun h => (List.nodup_cons.1 hnd).1 (h ▸ hr)
      rw [getCell_setCell_ne_p _ _ _ hrq]
      exact hempty r (List.mem_cons_of_mem _ hr)

lemma periodIndices_ne_lunch {s e : Int} {P : Nat} {lunchIdx : Option Nat}
    {p : Nat} (hp : p ∈ periodIndices s e P lunchIdx) : lunchIdx ≠ some p := by
  have := (List.mem_filter.1 hp).2
  simp only [Bool.and_eq_true, Bool.not_eq_true', decide_eq_false_iff_not] at this
  exact this.2

lemma periodIndices_lt {s e : Int} {P : Nat} {lunchIdx : Option Nat}
    {p : Nat} (hp : p ∈ periodIndices s e P lunchIdx) : p < P :=
  List.mem_range.1 (List.mem_filter.1 hp).1

lemma periodIndices_nodup (s e : Int) (P : Nat) (lunchIdx : Option Nat) :
    (periodIndices s e P lunchIdx).Nodup :=
  (List.nodup_range P).filter _

/-! ### Skipping of day-unparseable constraints -/

lemma greedyPlaceCons_skip {cidMap : List (Int × Course)} {P : Nat}
    {lunchIdx : Option Nat} {g : Grid} {cons : Constraint}
    (h : consDay cons ∉ DAYS) :
    greedyPlaceCons cidMap P lunchIdx g cons = g := by
  unfold greedyPlaceCons
  by_cases h0 : consDay cons = "" ∨ consPr cons = ""
  · rw [if_pos]
    rcases h0 with h0 | h0 <;> simp [h0]
  · rw [if_neg (by push_neg at h0; simp [h0.1, h0.2]), if_pos]
    simp [h]

lemma ortoolsConsOk_skip {cidMap : List (Int × Course)} {P : Nat}
    {lunchIdx : Option Nat} {a : Assignment} {cons : Constraint}
    (h : consDay cons ∉ DAYS) :
    ortoolsConsOk cidMap P lunchIdx a cons = true := by
  have hd : ortoolsDayIdx cons = none := by
    unfold ortoolsDayIdx
    rw [if_neg]
    simpa [consDay] using h
  simp only [ortoolsConsOk, hd]
  split
  · rfl
  split
  · rfl
  · rfl

lemma greedy_skip_constraint (courses : List Course) (l1 l2 : List Constraint)
    (cons : Constraint) (P : Nat) (lunch : Int)
    (shuffle : List String → List String) (h : consDay cons ∉ DAYS) :
    greedy_csp_solver courses (l1 ++ cons :: l2) P lunch shuffle =
      greedy_csp_solver courses (l1 ++ l2) P lunch shuffle := by
  simp only [greedy_csp_solver, List.foldl_append, List.foldl_cons,
    greedyPlaceCons_skip h]

lemma modelOk_skip_constraint (courses : List Course) (l1 l2 : List Constraint)
    (cons : Constraint) (P : Nat) (lunch : Int) (a : Assignment)
    (h : consDay cons ∉ DAYS) :
    ortoolsModelOk courses (l1 ++ cons :: l2) P lunch a =
      ortoolsModelOk courses (l1 ++ l2) P lunch a := by
  simp only [ortoolsModelOk, List.all_append, List.all_cons,
    ortoolsConsOk_skip h, Bool.true_and]

/-! ### Characterization of the validator -/

lemma validateStep_fst (gn : Grid) (ls : String) (st : Bool × List String)
    (c : Constraint) :
    (validateStep gn ls st c).1 = (st.1 && !validatorFails gn ls c) := by
  unfold validateStep validatorFails
  by_cases hs : validatorSkips ls c
  · simp [hs]
  · rw [if_neg hs]
    cases hrow : dictGet gn (pyCapitalize (pyTrim (getStr c.day))) with
    | none => simp [hs, hrow]
    | some row =>
      by_cases hf : consFound row (normalize_text (pyTrim (getStr c.course_name)))
          (parse_period_range (pyTrim (getStr c.period_range)))
      · simp [hs, hrow, hf]
      · simp [hs, hrow, hf]

lemma validateStep_len (gn : Grid) (ls : String) (st : Bool × List String)
    (c : Constraint) :
    (validateStep gn ls st c).2.length =
      st.2.length + (if validatorFails gn ls c then 1 else 0) := by
  unfold validateStep validatorFails
  by_cases hs : validatorSkips ls c
  · simp [hs]
  · rw [if_neg hs]
    cases hrow : dictGet gn (pyCapitalize (pyTrim (getStr c.day))) with
    | none => simp [hs, hrow]
    | some row =>
      by_cases hf : consFound row (normalize_text (pyTrim (getStr c.course_name)))
          (parse_period_range (pyTrim (getStr c.period_range)))
      · simp [hs, hrow, hf]
      · simp [hs, hrow, hf]

lemma validateFold_characterize (gn : Grid) (ls : String) :
    ∀ (cs : List Constraint) (st : Bool × List String),
      (cs.foldl (validateStep gn ls) st).1 =
        (st.1 && cs.all (fun c => !validatorFails gn ls c)) ∧
      (cs.foldl (validateStep gn ls) st).2.length =
        st.2.length + cs.countP (validatorFails gn ls) := by
  intro cs
  induction cs with
  | nil => intro st; simp
  | cons c rest ih =>
    intro st
    rw [List.foldl_cons]
    refine ⟨?_, ?_⟩
    · rw [(ih _).1, validateStep_fst, List.all_cons, Bool.and_assoc]
    · rw [(ih _).2, validateStep_len, List.countP_cons]
      by_cases hf : validatorFails gn ls c
      · simp [hf]
        omega
      · simp [hf]

/-! ### The matcher tiers -/

lemma mem_matchTier1 {target csec : String} {m : List (Int × Course)} {cid : Int}
    (h : cid ∈ matchTier1 target csec m) :
    ∃ e ∈ m, e.1 = cid ∧ tier1Pred target csec e.2 = true := by
  obtain ⟨e, he, heq⟩ := List.mem_map.1 h
  exact ⟨e, (List.mem_filter.1 he).1, heq, (List.mem_filter.1 he).2⟩

lemma mem_matchTier2 {target csec : String} {m : List (Int × Course)} {cid : Int}
    (h : cid ∈ matchTier2 target csec m) :
    ∃ e ∈ m, e.1 = cid ∧ tier2Pred target csec e.2 = true := by
  obtain ⟨e, he, heq⟩ := List.mem_map.1 h
  exact ⟨e, (List.mem_filter.1 he).1, heq, (List.mem_filter.1 he).2⟩

lemma mem_matchTier3 {target csec : String} {m : List (Int × Course)} {cid : Int}
    (h : cid ∈ matchTier3 target csec m) :
    ∃ e ∈ m, e.1 = cid ∧ tier3Pred target csec e.2 = true := by
  obtain ⟨e, he, heq⟩ := List.mem_map.1 h
  exact ⟨e, (List.mem_filter.1 he).1, heq, (List.mem_filter.1 he).2⟩

lemma mem_match_keys {cons : Constraint} {m : List (Int × Course)} {cid : Int}
    (h : cid ∈ match_constraint_to_cids cons m) : ∃ e ∈ m, e.1 = cid := by
  unfold match_constraint_to_cids at h
  dsimp only at h
  split at h
  · simp at h
  · split at h
    · obtain ⟨e, he, heq, _⟩ := mem_matchTier1 h
      exact ⟨e, he, heq⟩
    · split at h
      · obtain ⟨e, he, heq, _⟩ := mem_matchTier2 h
        exact ⟨e, he, heq⟩
      · obtain ⟨e, he, heq, _⟩ := mem_matchTier3 h
        exact ⟨e, he, heq⟩

lemma buildCids_key_mem (courses : List Course) :
    ∀ e ∈ (buildCids courses).2, e.1 ∈ (buildCids courses).1 := by
  unfold buildCids
  have : ∀ (st : List Int × List (Int × Course) × Int),
      (∀ e ∈ st.2.1, e.1 ∈ st.1) →
      ∀ e ∈ (courses.foldl (fun st c =>
          match c.id with
          | some cid => (st.1 ++ [cid], dictInsert st.2.1 cid c, st.2.2)
          | none => (st.1 ++ [st.2.2], dictInsert st.2.1 st.2.2 c, st.2.2 - 1))
        st).2.1,
        e.1 ∈ (courses.foldl (fun st c =>
          match c.id with
          | some cid => (st.1 ++ [cid], dictInsert st.2.1 cid c, st.2.2)
          | none => (st.1 ++ [st.2.2], dictInsert st.2.1 st.2.2 c, st.2.2 - 1))
        st).1 := by
    intro st hst
    refine foldl_inv (Q := fun st : List Int × List (Int × Course) × Int =>
      ∀ e ∈ st.2.1, e.1 ∈ st.1) ?_ courses st hst
    intro b c hb
    have step : ∀ (k : Int) (cidList : List Int) (mp : List (Int × Course)),
        (∀ e ∈ mp, e.1 ∈ cidList) →
        ∀ e ∈ dictInsert mp k c, e.1 ∈ cidList ++ [k] := by
      intro k cidList mp hmp e he
      unfold dictInsert at he
      split at he
      · obtain ⟨e0, he0, heq⟩ := List.mem_map.1 he
        by_cases h0 : e0.1 = k
        · rw [if_pos h0] at heq
          rw [← heq]
          exact List.mem_append_right _ (List.mem_singleton.2 rfl)
        · rw [if_neg h0] at heq
          rw [← heq]
          exact List.mem_append_left _ (hmp e0 he0)
      · rcases List.mem_append.1 he with h0 | h0
        · exact List.mem_append_left _ (hmp e h0)
        · rw [List.mem_singleton.1 h0]
          exact List.mem_append_right _ (List.mem_singleton.2 rfl)
    cases hc : c.id with
    | some cid => simpa [hc] using step cid b.1 b.2.1 hb
    | none => simpa [hc] using step b.2.2 b.1 b.2.1 hb
  exact this ([], [], -1) (by simp)

/-! ### Infeasibility of an Exact block reservation in the exact model -/

lemma countTrue_cells (a : Assignment) (cid : Int) (didx : Nat) (pis : List Nat) :
    countTrue a cid (pis.map (fun p => (didx, p))) =
      (pis.filter (fun p => a cid didx p)).length := by
  unfold countTrue
  rw [List.filter_map, List.length_map]
  rfl

lemma dailyUnique_bound {cidList : List Int} {P : Nat} {a : Assignment}
    {cid : Int} {didx : Nat} (hok : dailyUniqueOk cidList P a = true)
    (hcid : cid ∈ cidList) (hd : didx < DAYS.length) :
    ((List.range P).filter (fun p => a cid didx p)).length ≤ 1 := by
  have h1 := List.all_eq_true.1 hok cid hcid
  have h2 := List.all_eq_true.1 h1 didx (List.mem_range.2 hd)
  simpa using h2

lemma ortoolsDayIdx_lt {cons : Constraint} {didx : Nat}
    (h : ortoolsDayIdx cons = some didx) : didx < DAYS.length := by
  unfold ortoolsDayIdx at h
  dsimp only at h
  split at h
  · rename_i hc
    rw [Option.some_inj] at h
    rw [← h]
    exact List.findIdx_lt_length_of_exists
      ⟨pyCapitalize (pyTrim (getStr cons.day)), by simpa using hc, by simp⟩
  · simp at h

lemma ortoolsDayIdx_day_ne {cons : Constraint} {didx : Nat}
    (h : ortoolsDayIdx cons = some didx) : pyTrim (getStr cons.day) ≠ "" := by
  intro heq
  unfold ortoolsDayIdx at h
  rw [heq] at h
  have : pyCapitalize "" = "" := rfl
  rw [this] at h
  rw [if_neg (by decide)] at h
  exact Option.noConfusion h

lemma exact_single_block_unsat {courses : List Course}
    {constraints : List Constraint} {P : Nat} {lunch : Int} {cons : Constraint}
    {cid : Int} {didx : Nat}
    (hmem : cons ∈ constraints)
    (hname : getStr cons.course_name ≠ "")
    (hpr : pyTrim (consPr cons) ≠ "")
    (hday : ortoolsDayIdx cons = some didx)
    (hmatch : match_constraint_to_cids cons (buildCids courses).2 = [cid])
    (hexact : enforceExactOf cons = true)
    (hlen : 2 ≤ (ortoolsPis cons P (lunchIdxOf lunch P)).length) :
    ∀ a, ortoolsModelOk courses constraints P lunch a = false := by
  intro a
  by_contra hne
  have hok : ortoolsModelOk courses constraints P lunch a = true := by
    cases hb : ortoolsModelOk courses constraints P lunch a
    · exact absurd hb hne
    · rfl
  unfold ortoolsModelOk at hok
  simp only [Bool.and_eq_true] at hok
  obtain ⟨⟨⟨⟨⟨hmin, hdaily⟩, hteach⟩, hsect⟩, hlb⟩, hcons⟩ := hok
  have hconsOk := List.all_eq_true.1 hcons cons hmem
  have hdayraw : pyTrim (getStr cons.day) ≠ "" := ortoolsDayIdx_day_ne hday
  have hpis_ne : ortoolsPis cons P (lunchIdxOf lunch P) ≠ [] := by
    intro hnil
    rw [hnil] at hlen
    simp at hlen
  have hse : ¬ (max 0 (parse_period_token (pyTrim (consPr cons))).1 >
      min ((P : Int) - 1) (parse_period_token (pyTrim (consPr cons))).2) := by
    intro hgt
    apply hpis_ne
    unfold ortoolsPis periodIndices
    rw [List.filter_eq_nil_iff]
    intro p _
    simp only [Bool.and_eq_true, decide_eq_true_eq, not_and]
    intro h1 h2
    omega
  unfold ortoolsConsOk at hconsOk
  rw [if_neg hname] at hconsOk
  simp only [hday] at hconsOk
  rw [if_neg (by simp [hdayraw, hpr])] at hconsOk
  rw [if_neg hse] at hconsOk
  rw [hmatch] at hconsOk
  rw [if_neg (by simp)] at hconsOk
  rw [if_neg hpis_ne] at hconsOk
  rw [if_pos hexact] at hconsOk
  rw [if_pos (by simp)] at hconsOk
  have hle : (ortoolsPis cons P (lunchIdxOf lunch P)).length ≤
      countTrue a cid (List.map (fun p => (didx, p))
        (ortoolsPis cons P (lunchIdxOf lunch P))) := by
    simpa using hconsOk
  rw [countTrue_cells] at hle
  have hcid : cid ∈ (buildCids courses).1 := by
    have hc : cid ∈ match_constraint_to_cids cons (buildCids courses).2 := by
      rw [hmatch]; exact List.mem_singleton.2 rfl
    obtain ⟨e, he, heq⟩ := mem_match_keys hc
    exact heq ▸ buildCids_key_mem courses e he
  have hbound : ((ortoolsPis cons P (lunchIdxOf lunch P)).filter
      (fun p => a cid didx p)).length ≤
      ((List.range P).filter (fun p => a cid didx p)).length := by
    rw [← List.countP_eq_length_filter, ← List.countP_eq_length_filter]
    exact List.Sublist.countP_le _ (List.filter_sublist _)
  have hone := dailyUnique_bound hdaily hcid (ortoolsDayIdx_lt hday)
  have hfl : ((ortoolsPis cons P (lunchIdxOf lunch P)).filter
      (fun p => a cid didx p)).length ≤
      (ortoolsPis cons P (lunchIdxOf lunch P)).length := List.length_filter_le _ _
  omega

/-! ### Filler behaviour with no courses: everything becomes "Free" -/

lemma labelsOf_nil_eq : labelsOf ([] : List Course) = ["Free"] := rfl

lemma fillCell_free {lunchIdx : Option Nat} {st : Grid × Nat}
    (pd : Nat × String) {d : String} {p : Nat} (hnl : lunchIdx ≠ some p)
    (hprev : getCell st.1 d p = "" ∨ getCell st.1 d p = "Free") :
    getCell (fillCell lunchIdx ["Free"] st pd).1 d p = "" ∨
      getCell (fillCell lunchIdx ["Free"] st pd).1 d p = "Free" := by
  unfold fillCell
  split
  · rename_i hb
    have hpd : pd.1 ≠ p := fun h => hnl (h ▸ hb)
    rw [getCell_setCell_ne_p _ _ _ hpd]
    exact hprev
  split
  · rcases getCell_setCell_or st.1 pd.2 d pd.1 p
        (List.getD ["Free"] (st.2 % (["Free"] : List String).length) "") with h | h
    · rw [h]
      right
      simp [Nat.mod_one]
    · rw [h]
      exact hprev
  · exact hprev

lemma fillFold_free {lunchIdx : Option Nat} {d : String} {p : Nat}
    (hnl : lunchIdx ≠ some p) :
    ∀ (pairs : List (Nat × String)) (st : Grid × Nat),
      (getCell st.1 d p = "" ∨ getCell st.1 d p = "Free") →
      (getCell ((pairs.foldl (fillCell lunchIdx ["Free"]) st).1) d p = "" ∨
        getCell ((pairs.foldl (fillCell lunchIdx ["Free"]) st).1) d p = "Free") := by
  intro pairs
  induction pairs with
  | nil => intro st h; exact h
  | cons pd rest ih => intro st h; exact ih _ (fillCell_free pd hnl h)

/-! ### Tier facts used by the matcher precedence claim -/

lemma matchTier1_ne_nil_of_exists {target csec : String} {m : List (Int × Course)}
    (h : ∃ e ∈ m, tier1Pred target csec e.2 = true) :
    matchTier1 target csec m ≠ [] := by
  obtain ⟨e, he, hp⟩ := h
  exact List.ne_nil_of_mem
    (List.mem_map.2 ⟨e, List.mem_filter.2 ⟨he, hp⟩, rfl⟩)

lemma tier1Pred_section {target csec : String} {c : Course}
    (h : tier1Pred target csec c = true) (hne : strUpper csec ≠ "ALL") :
    courseSection c = csec := by
  unfold tier1Pred at h
  simp only [Bool.and_eq_true, Bool.not_eq_true', Bool.and_eq_false_iff,
    decide_eq_false_iff_not, decide_eq_true_eq] at h
  rcases h.2 with h2 | h2
  · exact absurd hne (by simpa using h2)
  · simpa using h2

lemma tier2Pred_section {target csec : String} {c : Course}
    (h : tier2Pred target csec c = true) (hne : strUpper csec ≠ "ALL") :
    courseSection c = csec := by
  unfold tier2Pred at h
  simp only [Bool.and_eq_true, Bool.not_eq_true', Bool.and_eq_false_iff,
    decide_eq_false_iff_not, decide_eq_true_eq] at h
  rcases h.1 with h2 | h2
  · exact absurd hne (by simpa using h2)
  · simpa using h2

lemma tier3Pred_section {target csec : String} {c : Course}
    (h : tier3Pred target csec c = true) (hne : strUpper csec ≠ "ALL") :
    courseSection c = csec := by
  unfold tier3Pred at h
  simp only [Bool.and_eq_true, Bool.not_eq_true', Bool.and_eq_false_iff,
    decide_eq_false_iff_not, decide_eq_true_eq] at h
  rcases h.1 with h2 | h2
  · exact absurd hne (by simpa using h2)
  · simpa using h2

lemma greedy_claims_shape (courses : List Course) (constraints : List Constraint)
    (P : Nat) (lunch : Int) (shuffle : List String → List String) :
    GridKeys (greedy_csp_solver courses constraints P lunch shuffle) = DAYS ∧
    (∀ e ∈ greedy_csp_solver courses constraints P lunch shuffle,
      e.2.length = P) ∧
    (∀ li, lunchIdxOf lunch P = some li →
      ∀ e ∈ greedy_csp_solver courses constraints P lunch shuffle,
        e.2.getD li "" = "LUNCH") := by
  have hs := gridShape_greedy courses constraints P lunch shuffle
  refine ⟨hs.1, hs.2, ?_⟩
  intro li hli e he
  rw [entry_getD_eq_getCell hs he]
  exact greedy_getCell_lunch courses constraints P lunch shuffle hli e.1
    (entry_key_mem_days hs he)

/-! ### The claims -/

/-- Claim C1: for every request, run_solver returns a grid whose keys are
exactly the five weekday names Monday through Friday, whose value for each
day is an ordered list of exactly `periods` string cells, and whose cell at
the blocked lunch period (when one is configured) is "LUNCH". -/
theorem run_solver_grid_shape (available : Bool) (oracle : Option Assignment)
    (shuffle : List String → List String) (courses : List Course)
    (constraints : List Constraint) (P : Nat) (lunch : Int) :
    GridKeys (run_solver available oracle shuffle courses constraints P lunch)
      = DAYS ∧
    (∀ e ∈ run_solver available oracle shuffle courses constraints P lunch,
      e.2.length = P) ∧
    (∀ li, lunchIdxOf lunch P = some li →
      ∀ e ∈ run_solver available oracle shuffle courses constraints P lunch,
        e.2.getD li "" = "LUNCH") := by
  unfold run_solver run_ortools_solver
  cases available with
  | false =>
    simp only [Bool.false_eq_true, if_false]
    exact greedy_claims_shape courses constraints P lunch shuffle
  | true =>
    simp only [if_true]
    cases oracle with
    | none => exact greedy_claims_shape courses constraints P lunch shuffle
    | some a =>
      dsimp only
      rw [if_neg (decode_ne_nil _ _ _ _ _)]
      refine ⟨decode_keys _ _ _ _ _, decode_rowsLen _ _ _ _ _, ?_⟩
      intro li hli
      rw [hli]
      exact decode_lunch _ _ _ _ (lunchIdxOf_lt hli)

/-- Witness for C1 at a concrete request. -/
theorem run_solver_grid_shape_witness :
    GridKeys (run_solver false none id [mathCourse] [consExactMath] 4 3) = DAYS ∧
    (∀ e ∈ run_solver false none id [mathCourse] [consExactMath] 4 3,
      e.2.length = 4) ∧
    (∀ e ∈ run_solver false none id [mathCourse] [consExactMath] 4 3,
      e.2.getD 2 "" = "LUNCH") := by
  have h := run_solver_grid_shape false none id [mathCourse] [consExactMath] 4 3
  exact ⟨h.1, h.2.1, h.2.2 2 (by decide)⟩

/-- Claim C2: when `lunch` is a valid 1-based period index, every day's cell
at index `lunch - 1` of the greedy grid is "LUNCH"; Local Improvement
preserves this for any input grid, because its swap-candidate slots exclude
the lunch column entirely (so neither swap endpoint is ever in it). -/
theorem lunch_column_invariant (courses : List Course)
    (constraints : List Constraint) (P : Nat) (lunch : Int)
    (shuffle : List String → List String) (cs : List Constraint) (ls : String)
    (picks : List (Nat × Nat)) {li : Nat}
    (hli : lunchIdxOf lunch P = some li) :
    (∀ e ∈ greedy_csp_solver courses constraints P lunch shuffle,
      e.2.getD li "" = "LUNCH") ∧
    (∀ g : Grid, (∀ e ∈ g, e.2.getD li "" = "LUNCH") →
      ∀ e ∈ improve_grid_via_swaps cs ls g picks (some li),
        e.2.getD li "" = "LUNCH") ∧
    (∀ nd np : Nat, ∀ s ∈ slotsFor nd np (some li), s.2 ≠ li) := by
  refine ⟨(greedy_claims_shape courses constraints P lunch shuffle).2.2 li hli,
    ?_, ?_⟩
  · intro g hg
    exact improve_lunch hg
  · intro nd np
    exact slotsFor_ne_lunch

/-- Witness for C2 at a concrete request and pick stream. -/
theorem lunch_column_invariant_witness :
    (∀ e ∈ greedy_csp_solver [mathCourse] [consExactMath] 4 3 id,
      e.2.getD 2 "" = "LUNCH") ∧
    (∀ e ∈ improve_grid_via_swaps [] "A"
        (greedy_csp_solver [mathCourse] [consExactMath] 4 3 id)
        [(0, 1), (2, 3)] (some 2),
      e.2.getD 2 "" = "LUNCH") ∧
    (∀ s ∈ slotsFor 5 4 (some 2), s.2 ≠ 2) := by
  have h := lunch_column_invariant [mathCourse] [consExactMath] 4 3 id [] "A"
    [(0, 1), (2, 3)] (show lunchIdxOf 3 4 = some 2 by decide)
  exact ⟨h.1, h.2.1 _ h.1, h.2.2 5 4⟩

/-- Claim C5: Local Improvement never decreases the diversity score, and if
the input grid passes validation the returned grid passes validation too (a
tentative swap is kept only when still valid and strictly score-increasing,
otherwise it is reverted). -/
theorem improve_monotone_and_valid (cs : List Constraint) (ls : String)
    (g : Grid) (picks : List (Nat × Nat)) (lunchIdx : Option Nat) :
    diversity_score g ≤
      diversity_score (improve_grid_via_swaps cs ls g picks lunchIdx) ∧
    ((validate_grid_constraints g cs ls).1 = true →
      (validate_grid_constraints (improve_grid_via_swaps cs ls g picks lunchIdx)
        cs ls).1 = true) :=
  improve_score_valid

/-- Witness for C5 at a concrete grid. -/
theorem improve_monotone_and_valid_witness :
    diversity_score [("Monday", ["a", "b"]), ("Tuesday", ["b", "a"])] ≤
      diversity_score (improve_grid_via_swaps [] "A"
        [("Monday", ["a", "b"]), ("Tuesday", ["b", "a"])] [(0, 0), (1, 2)] none) ∧
    (validate_grid_constraints
      [("Monday", ["a", "b"]), ("Tuesday", ["b", "a"])] [] "A").1 = true ∧
    (validate_grid_constraints (improve_grid_via_swaps [] "A"
        [("Monday", ["a", "b"]), ("Tuesday", ["b", "a"])] [(0, 0), (1, 2)] none)
      [] "A").1 = true := by
  have h := improve_monotone_and_valid [] "A"
    [("Monday", ["a", "b"]), ("Tuesday", ["b", "a"])] [(0, 0), (1, 2)] none
  exact ⟨h.1, by decide, h.2 (by decide)⟩

lemma greedy_getCell_nonempty (courses : List Course)
    (constraints : List Constraint) (P : Nat) (lunch : Int)
    (shuffle : List String → List String)
    (hshuffle : ∀ l : List String, (shuffle l).Perm l) :
    ∀ d ∈ DAYS, ∀ p < P,
      getCell (greedy_csp_solver courses constraints P lunch shuffle) d p ≠ "" := by
  intro d hd p hp
  unfold greedy_csp_solver
  exact fillFold_nonempty (shuffled_getD_ne (hshuffle _)) _ _
    (mem_scanPairs hd hp) hd
    (foldl_inv (fun b a hb => gridShape_greedyPlaceCons _ _ _ hb) _ _
      (gridShape_emptyGrid P)) hp

/-- Claim C6: greedy_csp_solver (total by construction in this embedding)
returns a fully populated grid — no cell is the empty string, the lunch cell
(when configured) is "LUNCH", and with no courses and no constraints every
non-lunch cell bears the default label "Free". -/
theorem greedy_always_populates (courses : List Course)
    (constraints : List Constraint) (P : Nat) (lunch : Int)
    (shuffle : List String → List String)
    (hshuffle : ∀ l : List String, (shuffle l).Perm l) :
    (∀ e ∈ greedy_csp_solver courses constraints P lunch shuffle,
      ∀ p < P, e.2.getD p "" ≠ "") ∧
    (∀ li, lunchIdxOf lunch P = some li →
      ∀ e ∈ greedy_csp_solver courses constraints P lunch shuffle,
        e.2.getD li "" = "LUNCH") ∧
    (courses = [] → constraints = [] →
      ∀ e ∈ greedy_csp_solver courses constraints P lunch shuffle,
        ∀ p < P, lunchIdxOf lunch P ≠ some p → e.2.getD p "" = "Free") := by
  have hs := gridShape_greedy courses constraints P lunch shuffle
  refine ⟨?_, (greedy_claims_shape courses constraints P lunch shuffle).2.2, ?_⟩
  · intro e he p hp
    rw [entry_getD_eq_getCell hs he]
    exact greedy_getCell_nonempty courses constraints P lunch shuffle hshuffle
      e.1 (entry_key_mem_days hs he) p hp
  · intro hc hcs
    subst hc
    subst hcs
    intro e he p hp hnl
    have hfree : shuffle (labelsOf ([] : List Course)) = ["Free"] :=
      List.perm_singleton.1 (hshuffle (labelsOf []))
    have hne : getCell (greedy_csp_solver [] [] P lunch shuffle) e.1 p ≠ "" :=
      greedy_getCell_nonempty [] [] P lunch shuffle hshuffle e.1
        (entry_key_mem_days hs he) p hp
    have hdom : getCell (greedy_csp_solver [] [] P lunch shuffle) e.1 p = "" ∨
        getCell (greedy_csp_solver [] [] P lunch shuffle) e.1 p = "Free" := by
      unfold greedy_csp_solver
      rw [hfree]
      exact fillFold_free hnl _ _ (Or.inl (getCell_emptyGrid P e.1 p))
    rw [entry_getD_eq_getCell hs he]
    rcases hdom with h | h
    · exact absurd h hne
    · exact h

/-- Witness for C6 at a concrete request with no courses. -/
theorem greedy_always_populates_witness :
    (∀ e ∈ greedy_csp_solver [] [] 3 2 id, ∀ p < 3, e.2.getD p "" ≠ "") ∧
    (∀ e ∈ greedy_csp_solver [] [] 3 2 id, e.2.getD 1 "" = "LUNCH") ∧
    (∀ e ∈ greedy_csp_solver [] [] 3 2 id, ∀ p < 3,
      lunchIdxOf 2 3 ≠ some p → e.2.getD p "" = "Free") := by
  have h := greedy_always_populates [] [] 3 2 id (fun l => List.Perm.refl l)
  exact ⟨h.1, h.2.1 1 (by decide), h.2.2 rfl rfl⟩

lemma greedyPis_lt {cons : Constraint} {P : Nat} {lunchIdx : Option Nat} {p : Nat}
    (hp : p ∈ greedyPis cons P lunchIdx) : p < P := by
  unfold greedyPis at hp
  exact periodIndices_lt hp

lemma greedyPis_ne_lunch {cons : Constraint} {P : Nat} {lunchIdx : Option Nat}
    {p : Nat} (hp : p ∈ greedyPis cons P lunchIdx) : lunchIdx ≠ some p := by
  unfold greedyPis at hp
  exact periodIndices_ne_lunch hp

lemma greedyPis_nodup (cons : Constraint) (P : Nat) (lunchIdx : Option Nat) :
    (greedyPis cons P lunchIdx).Nodup := by
  unfold greedyPis
  exact periodIndices_nodup _ _ _ _

lemma greedyPlaceCons_exact {cidMap : List (Int × Course)} {P : Nat}
    {lunchIdx : Option Nat} {g : Grid} {cons : Constraint}
    (hday : consDay cons ∈ DAYS) (hpr : consPr cons ≠ "")
    (htype : consType cons = "exact")
    (hcids : match_constraint_to_cids cons cidMap ≠ [])
    (hpis : greedyPis cons P lunchIdx ≠ []) :
    greedyPlaceCons cidMap P lunchIdx g cons =
      (greedyPis cons P lunchIdx).foldl
        (fun g p => if getCell g (consDay cons) p = "" then
          setCell g (consDay cons) p
            (repLabel cidMap ((match_constraint_to_cids cons cidMap).headD 0))
          else g) g := by
  have hdne : consDay cons ≠ "" := fun h => by
    rw [h] at hday
    exact absurd hday (by decide)
  unfold greedyPlaceCons
  rw [if_neg (by simp [hdne, hpr]), if_neg (by simpa using hday),
    if_neg hpis, if_neg hcids, if_pos htype]

/-- Counterexample to C3 as stated: on a grid where an Exact constraint's
range matches at only one of its two required indices, the Validator
reports the grid satisfied with no violations, although not every required
index matches. -/
theorem validator_exact_counterexample :
    validate_grid_constraints [("Monday", ["Math", ""])] [consExactMath] "A"
      = (true, []) ∧
    specExactAllIndices [("Monday", ["Math", ""])] "A" consExactMath = false := by
  exact ⟨rfl, rfl⟩

/-- Claim C3 (amended): the Validator judges Hard and Exact constraints
identically — a checked constraint is satisfied as soon as at least one
required index matches via normalized substring containment; `ok` is true
iff no checked constraint fails, exactly one violation message is
accumulated per failed constraint, and (the validator being a pure function
of the grid here) the grid is not mutated. -/
theorem validator_characterization (grid : Grid) (cs : List Constraint)
    (ls : String) :
    (validate_grid_constraints grid cs ls).1 =
      cs.all (fun c => !validatorFails (gridNormOf grid) ls c) ∧
    (validate_grid_constraints grid cs ls).2.length =
      cs.countP (validatorFails (gridNormOf grid) ls) ∧
    (∀ c : Constraint,
      validatorFails (gridNormOf grid) ls { c with type := some "Exact" } =
        validatorFails (gridNormOf grid) ls { c with type := some "Hard" }) := by
  have h := validateFold_characterize (gridNormOf grid) ls cs (true, [])
  refine ⟨by simpa using h.1, by simpa using h.2, fun c => rfl⟩

/-- Counterexample to C7 as stated: when the constraint's course text
normalizes to the empty string, the matcher returns `[]` even though the
first tier's candidate list is non-empty (a course whose name is also
empty exact-matches), so the matcher does not return the first tier's
non-empty candidate list. -/
theorem matcher_empty_target_counterexample :
    match_constraint_to_cids consEmptyName [(1, emptyNameCourse)] = [] ∧
    matchTier1 (consTarget consEmptyName) (consSection consEmptyName)
      [(1, emptyNameCourse)] = [1] := by
  exact ⟨rfl, rfl⟩

/-- Claim C7 (amended): provided the constraint's course text normalizes to
a non-empty string, the matcher applies the three tiers in order and
returns the first non-empty one; whenever some course exact-matches (tier-1
predicate), every returned candidate exact-matches (so no merely token- or
prefix/suffix-matched course appears); and the section filter, when not
"ALL", holds of every returned candidate at every tier. -/
theorem matcher_tier_precedence (cons : Constraint) (m : List (Int × Course))
    (htarget : consTarget cons ≠ "") :
    (match_constraint_to_cids cons m =
      (if matchTier1 (consTarget cons) (consSection cons) m ≠ [] then
        matchTier1 (consTarget cons) (consSection cons) m
       else if matchTier2 (consTarget cons) (consSection cons) m ≠ [] then
        matchTier2 (consTarget cons) (consSection cons) m
       else matchTier3 (consTarget cons) (consSection cons) m)) ∧
    ((∃ e ∈ m, tier1Pred (consTarget cons) (consSection cons) e.2 = true) →
      ∀ cid ∈ match_constraint_to_cids cons m,
        ∃ e ∈ m, e.1 = cid ∧
          tier1Pred (consTarget cons) (consSection cons) e.2 = true) ∧
    (strUpper (consSection cons) ≠ "ALL" →
      ∀ cid ∈ match_constraint_to_cids cons m,
        ∃ e ∈ m, e.1 = cid ∧ courseSection e.2 = consSection cons) := by
  have heq : match_constraint_to_cids cons m =
      (if matchTier1 (consTarget cons) (consSection cons) m ≠ [] then
        matchTier1 (consTarget cons) (consSection cons) m
       else if matchTier2 (consTarget cons) (consSection cons) m ≠ [] then
        matchTier2 (consTarget cons) (consSection cons) m
       else matchTier3 (consTarget cons) (consSection cons) m) := by
    unfold match_constraint_to_cids
    rw [if_neg htarget]
  refine ⟨heq, ?_, ?_⟩
  · intro hex cid hcid
    rw [heq, if_pos (matchTier1_ne_nil_of_exists hex)] at hcid
    exact mem_matchTier1 hcid
  · intro hsec cid hcid
    rw [heq] at hcid
    split at hcid
    · obtain ⟨e, he, heq1, hp⟩ := mem_matchTier1 hcid
      exact ⟨e, he, heq1, tier1Pred_section hp hsec⟩
    · split at hcid
      · obtain ⟨e, he, heq1, hp⟩ := mem_matchTier2 hcid
        exact ⟨e, he, heq1, tier2Pred_section hp hsec⟩
      · obtain ⟨e, he, heq1, hp⟩ := mem_matchTier3 hcid
        exact ⟨e, he, heq1, tier3Pred_section hp hsec⟩

/-- Witness for the amended C7 at a concrete constraint and course map. -/
theorem matcher_tier_precedence_witness :
    (match_constraint_to_cids consExactMath sampleCourseMap =
      (if matchTier1 (consTarget consExactMath) (consSection consExactMath)
          sampleCourseMap ≠ [] then
        matchTier1 (consTarget consExactMath) (consSection consExactMath)
          sampleCourseMap
       else if matchTier2 (consTarget consExactMath) (consSection consExactMath)
          sampleCourseMap ≠ [] then
        matchTier2 (consTarget consExactMath) (consSection consExactMath)
          sampleCourseMap
       else matchTier3 (consTarget consExactMath) (consSection consExactMath)
          sampleCourseMap)) ∧
    ((∃ e ∈ sampleCourseMap,
        tier1Pred (consTarget consExactMath) (consSection consExactMath) e.2
          = true) →
      ∀ cid ∈ match_constraint_to_cids consExactMath
          sampleCourseMap,
        ∃ e ∈ sampleCourseMap, e.1 = cid ∧
          tier1Pred (consTarget consExactMath) (consSection consExactMath) e.2
            = true) ∧
    (strUpper (consSection consExactMath) ≠ "ALL" →
      ∀ cid ∈ match_constraint_to_cids consExactMath
          sampleCourseMap,
        ∃ e ∈ sampleCourseMap, e.1 = cid ∧
          courseSection e.2 = consSection consExactMath) :=
  matcher_tier_precedence consExactMath sampleCourseMap
    (by decide)

/-- Counterexample to C4 as stated: the Exact "Math" constraint resolves
uniquely to course 1 and period 1 (index 0) is in its range off lunch, yet
the returned grid's Monday cell 0 bears "English" — placed by the earlier
Hard constraint — because the greedy Exact branch fills only still-empty
cells. -/
theorem greedy_exact_partial_fill_counterexample :
    match_constraint_to_cids consExactMath
      (buildCids [mathCourse, englishCourse]).2 = [1] ∧
    (0 : Nat) ∈ greedyPis consExactMath 2 (lunchIdxOf 0 2) ∧
    getCell (greedy_csp_solver [mathCourse, englishCourse]
      [consHardEnglish, consExactMath] 2 0 id) "Monday" 0 = "English" ∧
    getCell (greedy_csp_solver [mathCourse, englishCourse]
      [consHardEnglish, consExactMath] 2 0 id) "Monday" 0 ≠
      repLabel (buildCids [mathCourse, englishCourse]).2 1 := by
  exact ⟨rfl, by decide, rfl, by decide⟩

/-- Claim C4 (amended): for a request whose constraint list consists of the
Exact constraint alone (so no earlier placement can occupy its range), the
greedy grid bears the first matched course's label at every in-range,
non-lunch period of the constraint's day; in general the Exact branch only
fills the cells of the range that are still empty when it runs. -/
theorem greedy_exact_single_constraint (courses : List Course)
    (cons : Constraint) (P : Nat) (lunch : Int)
    (shuffle : List String → List String)
    (hday : consDay cons ∈ DAYS) (hpr : consPr cons ≠ "")
    (htype : consType cons = "exact")
    (hcids : match_constraint_to_cids cons (buildCids courses).2 ≠ [])
    {p : Nat} (hp : p ∈ greedyPis cons P (lunchIdxOf lunch P)) :
    getCell (greedy_csp_solver courses [cons] P lunch shuffle) (consDay cons) p =
      repLabel (buildCids courses).2
        ((match_constraint_to_cids cons (buildCids courses).2).headD 0) := by
  unfold greedy_csp_solver
  simp only [List.foldl_cons, List.foldl_nil]
  rw [greedyPlaceCons_exact hday hpr htype hcids (List.ne_nil_of_mem hp)]
  apply fillFold_keep_value (greedyPis_ne_lunch hp) (repLabel_ne _ _)
  exact exactFold_sets _ _ (greedyPis_nodup cons P (lunchIdxOf lunch P)) hday
    (gridShape_emptyGrid P) (fun r hr => greedyPis_lt hr)
    (fun r _ => getCell_emptyGrid P _ r) p hp

/-- Witness for the amended C4 at a concrete single-constraint request. -/
theorem greedy_exact_single_constraint_witness :
    getCell (greedy_csp_solver [mathCourse, englishCourse] [consExactMath] 4 3 id)
        (consDay consExactMath) 0 =
      repLabel (buildCids [mathCourse, englishCourse]).2
        ((match_constraint_to_cids consExactMath
          (buildCids [mathCourse, englishCourse]).2).headD 0) :=
  greedy_exact_single_constraint [mathCourse, englishCourse] consExactMath 4 3 id
    (by decide) (by decide) (by decide) (by decide)
    (show (0 : Nat) ∈ greedyPis consExactMath 4 (lunchIdxOf 3 4) by decide)

/-- Counterexample to C9 as stated: a constraint whose period-range text
"abc" is unparseable is not skipped — `_parse_period_token` falls back to
`(0, 0)`, i.e. period 1, and the greedy solver places the constraint's
label there (with no courses and no constraint the same cell would be the
filler default "Free"). -/
theorem malformed_range_counterexample :
    parse_period_token "abc" = (0, 0) ∧
    getCell (greedy_csp_solver [] [consBadRange] 3 0 id) "Monday" 0 = "Math" ∧
    getCell (greedy_csp_solver [] [] 3 0 id) "Monday" 0 = "Free" := by
  exact ⟨rfl, rfl, rfl⟩

/-- Claim C9 (amended): a constraint whose day name does not resolve to a
weekday is skipped — it changes nothing in the greedy result and adds no
rule to the exact-solver model — and every other constraint of the same
request is processed exactly as it would be without it.  (A constraint with
a non-empty unparseable period range, by contrast, is parsed as period 1
and enforced there.) -/
theorem malformed_day_skipped (courses : List Course)
    (l1 l2 : List Constraint) (cons : Constraint) (P : Nat) (lunch : Int)
    (shuffle : List String → List String) (a : Assignment)
    (h : consDay cons ∉ DAYS) :
    greedy_csp_solver courses (l1 ++ cons :: l2) P lunch shuffle =
      greedy_csp_solver courses (l1 ++ l2) P lunch shuffle ∧
    ortoolsModelOk courses (l1 ++ cons :: l2) P lunch a =
      ortoolsModelOk courses (l1 ++ l2) P lunch a :=
  ⟨greedy_skip_constraint courses l1 l2 cons P lunch shuffle h,
    modelOk_skip_constraint courses l1 l2 cons P lunch a h⟩

/-- Witness for the amended C9 at a concrete request. -/
theorem malformed_day_skipped_witness :
    greedy_csp_solver [mathCourse] ([] ++ consBadDay :: [consExactMath]) 3 0 id =
      greedy_csp_solver [mathCourse] ([] ++ [consExactMath]) 3 0 id ∧
    ortoolsModelOk [mathCourse] ([] ++ consBadDay :: [consExactMath]) 3 0 aOnce =
      ortoolsModelOk [mathCourse] ([] ++ [consExactMath]) 3 0 aOnce :=
  malformed_day_skipped [mathCourse] [] [consExactMath] consBadDay 3 0 id aOnce
    (by decide)

/-- Counterexample to C8 as stated: the model accepts an assignment
scheduling the credits-2 course "Math" exactly once — the only
occurrence rule encoded is `sum ≥ 1`, so the credit count is not a minimum;
the decoded grid of the exact path then bears "Math" in one cell only. -/
theorem credits_not_enforced_counterexample :
    ortoolsModelOk [mathCourse] [] 2 0 aOnce = true ∧
    courseCredits mathCourse = 2 ∧
    countTrue aOnce 1 (weekCells 2) = 1 ∧
    run_ortools_solver true (some aOnce) [mathCourse] [] 2 0 =
      some (decodeGrid (buildCids [mathCourse]).1 (buildCids [mathCourse]).2 2
        (lunchIdxOf 0 2) aOnce) ∧
    gridCountLabel (decodeGrid (buildCids [mathCourse]).1
      (buildCids [mathCourse]).2 2 (lunchIdxOf 0 2) aOnce) "Math" = 1 := by
  exact ⟨rfl, rfl, rfl, rfl, rfl⟩

/-- Claim C8 (amended): every assignment satisfying the exact-solver model
schedules each supplied course at least once across the week — one
occurrence, not `credits` occurrences, is the enforced minimum (the credit
value is read but unused). -/
theorem model_min_occurrence (courses : List Course)
    (constraints : List Constraint) (P : Nat) (lunch : Int) (a : Assignment)
    (hok : ortoolsModelOk courses constraints P lunch a = true) :
    ∀ cid ∈ (buildCids courses).1, 1 ≤ countTrue a cid (weekCells P) := by
  unfold ortoolsModelOk at hok
  simp only [Bool.and_eq_true] at hok
  intro cid hcid
  have := List.all_eq_true.1 hok.1.1.1.1.1 cid hcid
  simpa using this

/-- Witness for the amended C8 at the concrete satisfying assignment. -/
theorem model_min_occurrence_witness :
    1 ≤ countTrue aOnce 1 (weekCells 2) :=
  model_min_occurrence [mathCourse] [] 2 0 aOnce (by decide) 1 (by decide)

/-- Claim C10: daily uniqueness together with the Exact encoding for a
single matched candidate over two or more allowed indices admits no
satisfying assignment; consequently any sound solve outcome is `none` and
run_solver returns the greedy fallback grid. -/
theorem exact_block_forces_fallback (courses : List Course)
    (constraints : List Constraint) (P : Nat) (lunch : Int) (cons : Constraint)
    (cid : Int) (didx : Nat) (oracle : Option Assignment)
    (shuffle : List String → List String)
    (hmem : cons ∈ constraints)
    (hname : getStr cons.course_name ≠ "")
    (hpr : pyTrim (consPr cons) ≠ "")
    (hday : ortoolsDayIdx cons = some didx)
    (hmatch : match_constraint_to_cids cons (buildCids courses).2 = [cid])
    (hexact : enforceExactOf cons = true)
    (hlen : 2 ≤ (ortoolsPis cons P (lunchIdxOf lunch P)).length)
    (hsound : ∀ a, oracle = some a →
      ortoolsModelOk courses constraints P lunch a = true) :
    (∀ a, ortoolsModelOk courses constraints P lunch a = false) ∧
    run_ortools_solver true oracle courses constraints P lunch = none ∧
    run_solver true oracle shuffle courses constraints P lunch =
      greedy_csp_solver courses constraints P lunch shuffle := by
  have hunsat := exact_single_block_unsat hmem hname hpr hday hmatch hexact hlen
  have hor : oracle = none := by
    cases ho : oracle with
    | none => rfl
    | some a =>
      have h1 := hsound a ho
      rw [hunsat a] at h1
      exact absurd h1 (by simp)
  refine ⟨hunsat, ?_, ?_⟩
  · unfold run_ortools_solver
    rw [hor]
    rfl
  · unfold run_solver run_ortools_solver
    rw [hor]
    rfl

/-- Witness for C10 at a concrete infeasible request. -/
theorem exact_block_forces_fallback_witness :
    ortoolsModelOk [mathCourse] [consExactMath] 3 0 aOnce = false ∧
    run_ortools_solver true none [mathCourse] [consExactMath] 3 0 = none ∧
    run_solver true none id [mathCourse] [consExactMath] 3 0 =
      greedy_csp_solver [mathCourse] [consExactMath] 3 0 id := by
  have h := exact_block_forces_fallback [mathCourse] [consExactMath] 3 0
    consExactMath 1 0 none id (by decide) (by decide) (by decide) (by decide)
    (by decide) (by decide) (by decide) (fun a ha => Option.noConfusion ha)
  exact ⟨h.1 aOnce, h.2.1, h.2.2⟩

end Timetable
